import Mathlib

/-!
Verification of the MathCrew adaptive math-tutoring application.

This file gives a shallow embedding, in Lean 4, of the scaffolding /
problem-bank / gamification core of the repository (files `db.py` and
`web_tutor.py`) and proves properties about it.  Python machine values are
modelled as follows: SQLite rows become Lean structures, tables become lists
ordered by primary key, Python ints become `Nat`/`Int`, and exact numeric
values that Python holds in IEEE doubles (XP thresholds, answers) are
modelled as exact rationals `ℚ`; `None` becomes `Option`.
-/

namespace MathCrew

/-! ## History rows (`db.py`: table `history`, `save_result`)

A `HistoryEntry` models one row of the `history` table as written by
`db.save_result`.  The row id of the `n`-th entry of the table list is `n+1`
(SQLite `AUTOINCREMENT`; the application never deletes rows).
`correct_answer` is kept as the numeric value of the stored answer
(`None` models both a SQL NULL and a stored string that does not read back
as a number; both make an answer check come out incorrect). -/

structure HistoryEntry where
  student_id : Nat
  question : String
  correct_answer : Option ℚ
  student_answer : String
  is_correct : Bool
  topic : Option String
  requested_topic : Option String
  feedback : Option String
  weakness : Option String
  misconception_type : Option String
  misconception_detail : Option String
  scaffold_level : Nat
  scaffold_parent_id : Option Nat
deriving DecidableEq

/-! ## Gamification (`db.py`: `_level_from_xp`, `_level_title`,
`get_gamification_stats`) -/

/-- The row data `get_gamification_stats` selects
(`SELECT is_correct, scaffold_level FROM history ... ORDER BY id`). -/
structure GamRow where
  is_correct : Bool
  scaffold_level : Nat
deriving DecidableEq

/-- Accumulator of the XP/streak loop in `get_gamification_stats`. -/
structure GamAcc where
  xp : Nat
  streak : Nat
  best_streak : Nat
deriving DecidableEq

/-- One-time streak bonus awarded when the running streak reaches exactly
3, 5, 10 or 20 (`db.py` lines 439-446). -/
def streakBonus (streak : Nat) : Nat :=
  if streak = 3 then 3
  else if streak = 5 then 5
  else if streak = 10 then 10
  else if streak = 20 then 20
  else 0

/-- One iteration of the XP loop of `get_gamification_stats`
(`db.py` lines 429-449). -/
def gamStep (acc : GamAcc) (r : GamRow) : GamAcc :=
  if r.is_correct then
    let gain := if r.scaffold_level > 0 then 8 else 10
    let streak := acc.streak + 1
    { xp := acc.xp + gain + streakBonus streak
      streak := streak
      best_streak := max acc.best_streak streak }
  else
    { xp := acc.xp + 2, streak := 0, best_streak := acc.best_streak }

/-- The whole XP loop over the chronologically ordered rows. -/
def gamFold (rows : List GamRow) : GamAcc :=
  rows.foldl gamStep ⟨0, 0, 0⟩

/-- Function `db._level_from_xp`: `min(int(0.4 * sqrt(xp)) + 1, 50)`.
For a natural number `xp`, `int(0.4*sqrt(xp)) = ⌊(2/5)·√xp⌋` equals
`Nat.sqrt (4 * xp / 25)` (proved below in `level_core_eq_floor`), which keeps
the definition executable and exact. -/
def _level_from_xp (xp : Nat) : Nat :=
  min (Nat.sqrt (4 * xp / 25) + 1) 50

/-- The table `db.LEVEL_TITLES`. -/
def LEVEL_TITLES : List (Nat × String) :=
  [(1, "Beginner"), (2, "Learner"), (3, "Explorer"), (4, "Thinker"),
   (5, "Star"), (6, "Problem Pro"), (7, "Math Hero"), (8, "Number Ninja"),
   (9, "Super Brain"), (10, "Genius"), (11, "Mastermind"), (12, "Legend")]

/-- Function `db._level_title`: dictionary lookup with default `"Math Wizard"`. -/
def _level_title (level : Nat) : String :=
  (LEVEL_TITLES.lookup level).getD "Math Wizard"

/-- Python `int()` applied to a (real-valued) quantity: truncation toward
zero. -/
def truncToInt (q : ℚ) : Int :=
  if 0 ≤ q then ⌊q⌋ else ⌈q⌉

/-- The record returned by `db.get_gamification_stats`. -/
structure GamStats where
  xp : Nat
  level : Nat
  level_title : String
  xp_for_next : Int
  xp_progress_pct : Int
  streak : Nat
  best_streak : Nat
deriving DecidableEq

/-- The per-student chronological row list that `get_gamification_stats`
reads (`WHERE student_id = ? ORDER BY id`). -/
def gamRows (hist : List HistoryEntry) (sid : Nat) : List GamRow :=
  (hist.filter (fun h => h.student_id == sid)).map
    (fun h => ⟨h.is_correct, h.scaffold_level⟩)

/-- Function `db.get_gamification_stats` (lines 418-469).  The literal `0.4` of the
source is the exact rational `2/5`; the level thresholds
`((level - 1) / 0.4) ** 2` are computed in exact rational arithmetic. -/
def get_gamification_stats (hist : List HistoryEntry) (sid : Nat) : GamStats :=
  let acc := gamFold (gamRows hist sid)
  let level := _level_from_xp acc.xp
  let next_level := level + 1
  let xp_for_current : ℚ := if level > 1 then (((level : ℚ) - 1) / (2/5)) ^ 2 else 0
  let xp_for_next : ℚ := (((next_level : ℚ) - 1) / (2/5)) ^ 2
  let xp_in_level : ℚ := (acc.xp : ℚ) - xp_for_current
  let xp_needed : ℚ := xp_for_next - xp_for_current
  let pct : Int := if 0 < xp_needed then truncToInt (xp_in_level / xp_needed * 100) else 0
  { xp := acc.xp
    level := level
    level_title := _level_title level
    xp_for_next := truncToInt xp_for_next
    xp_progress_pct := max 0 (min 100 pct)
    streak := acc.streak
    best_streak := acc.best_streak }

/-- Justification that `Nat.sqrt (4 * x / 25)` is the exact value of
`int(0.4 * sqrt(x))`, i.e. `⌊(2/5)·√x⌋`, for every natural `x`. -/
theorem level_core_eq_floor (x : Nat) :
    (Nat.sqrt (4 * x / 25) : ℤ) = ⌊(2/5 : ℝ) * Real.sqrt x⌋ := by
  set k := Nat.sqrt (4 * x / 25) with hk
  have h1 : k * k ≤ 4 * x / 25 := Nat.sqrt_le (4 * x / 25)
  have h2 : 4 * x / 25 < (k + 1) * (k + 1) := Nat.lt_succ_sqrt (4 * x / 25)
  have h1' : 25 * (k * k) ≤ 4 * x := by
    calc 25 * (k * k) ≤ 25 * (4 * x / 25) := Nat.mul_le_mul_left _ h1
    _ = (4 * x / 25) * 25 := Nat.mul_comm _ _
    _ ≤ 4 * x := Nat.div_mul_le_self (4 * x) 25
  have h2' : 4 * x < 25 * ((k + 1) * (k + 1)) := by
    calc 4 * x < (k + 1) * (k + 1) * 25 :=
          (Nat.div_lt_iff_lt_mul (by norm_num : 0 < 25)).mp h2
    _ = 25 * ((k + 1) * (k + 1)) := Nat.mul_comm _ _
  have hxk : (25 : ℝ) * ((k : ℝ) * k) ≤ 4 * (x : ℝ) := by exact_mod_cast h1'
  have hxk2 : (4 : ℝ) * (x : ℝ) < 25 * (((k : ℝ) + 1) * ((k : ℝ) + 1)) := by
    exact_mod_cast h2'
  symm
  rw [Int.floor_eq_iff]
  refine ⟨?_, ?_⟩
  · have h5 : (5/2 : ℝ) * k ≤ Real.sqrt x := by
      have h0 : (0 : ℝ) ≤ (5/2 : ℝ) * k := by positivity
      rw [← Real.sqrt_sq h0]
      apply Real.sqrt_le_sqrt
      nlinarith
    push_cast
    linarith
  · have h6 : Real.sqrt x < (5/2 : ℝ) * ((k : ℝ) + 1) := by
      rw [Real.sqrt_lt' (by positivity)]
      nlinarith
    push_cast
    linarith

/-! ## Problem bank (`db.py`: `save_to_problem_bank`,
`find_reusable_problem`, `increment_times_served`) -/

/-- One row of the `problem_bank` table. -/
structure BankEntry where
  id : Nat
  grade : Nat
  curriculum_style : String
  topic : String
  question : String
  correct_answer : String
  hint : String
  is_scaffold : Bool
  scaffold_misconception_type : Option String
  times_served : Nat
deriving DecidableEq

/-- The WHERE clause of the two queries in `find_reusable_problem`
(`db.py` lines 381-396): when `is_scaffold` and a misconception type are both
given, the misconception type is part of the key; otherwise only the
scaffold flag is matched.  (Python tests truthiness of
`scaffold_misconception_type`; `Option.isSome` models `None` vs a value.) -/
def bankQueryMatch (grade : Nat) (style topic : String) (is_scaffold : Bool)
    (mt : Option String) (e : BankEntry) : Bool :=
  if is_scaffold && mt.isSome then
    e.grade == grade && e.curriculum_style == style && e.topic == topic &&
      e.is_scaffold == true && e.scaffold_misconception_type == mt
  else
    e.grade == grade && e.curriculum_style == style && e.topic == topic &&
      e.is_scaffold == is_scaffold

/-- The "recently seen" question texts of a student: the questions of the
student's most recent `exclude_recent` history rows
(`SELECT question FROM history WHERE student_id = ? ORDER BY id DESC LIMIT ?`).
The history list is in ascending id order, so descending order is its
reverse. -/
def recentQuestions (hist : List HistoryEntry) (sid : Nat)
    (exclude_recent : Nat) : List String :=
  (((hist.filter (fun h => h.student_id == sid)).reverse).take exclude_recent).map
    (fun h => h.question)

/-- The rows `find_reusable_problem` iterates over are the bank rows matching
the query, ordered by `times_served ASC, RANDOM()`.  The `RANDOM()`
tie-break makes the row order nondeterministic, so the order is a parameter
`rows` constrained to be a permutation of the matching rows that is sorted
by ascending `times_served`. -/
def BankQueryResult (bank : List BankEntry) (grade : Nat) (style topic : String)
    (is_scaffold : Bool) (mt : Option String) (rows : List BankEntry) : Prop :=
  rows.Perm (bank.filter (bankQueryMatch grade style topic is_scaffold mt)) ∧
    rows.Pairwise (fun a b => a.times_served ≤ b.times_served)

/-- The scan at the end of `db.find_reusable_problem` (lines 399-402):
return the first row whose question the student has not recently seen,
else `None`. -/
def find_reusable_problem (hist : List HistoryEntry) (sid : Nat)
    (exclude_recent : Nat) (rows : List BankEntry) : Option BankEntry :=
  rows.find? (fun r => !((recentQuestions hist sid exclude_recent).contains r.question))

/-- Function `db.save_to_problem_bank` (lines 353-367): insert a fresh row with
`times_served = 0`; the new row id is one past the table length.
Returns the new table and the new row's id. -/
def save_to_problem_bank (bank : List BankEntry) (grade : Nat)
    (style topic question correct_answer hint : String)
    (is_scaffold : Bool) (mt : Option String) : List BankEntry × Nat :=
  let bank_id := bank.length + 1
  (bank ++ [{ id := bank_id, grade := grade, curriculum_style := style,
              topic := topic, question := question,
              correct_answer := correct_answer, hint := hint,
              is_scaffold := is_scaffold, scaffold_misconception_type := mt,
              times_served := 0 }], bank_id)

/-- Function `db.increment_times_served` (lines 404-408):
`UPDATE problem_bank SET times_served = times_served + 1 WHERE id = ?`. -/
def increment_times_served (bank : List BankEntry) (bank_id : Nat) :
    List BankEntry :=
  bank.map (fun e =>
    if e.id == bank_id then { e with times_served := e.times_served + 1 } else e)

/-! ## Achievements (`db.py`: `unlock_achievement`, `check_achievements`) -/

/-- The keys of `db.ACHIEVEMENTS`. -/
def ACHIEVEMENT_KEYS : List String :=
  ["first_correct", "ten_correct", "fifty_correct", "hundred_correct",
   "streak_3", "streak_5", "streak_10", "try_3_topics", "try_5_topics",
   "ten_problems", "fifty_problems", "scaffold_win", "scaffold_master",
   "perfect_session_5", "level_5"]

/-- Function `db.unlock_achievement`: `INSERT` into the `achievements` table, whose
`UNIQUE(student_id, achievement_key)` constraint makes the insert fail
(returning `False`) when the pair is already present.  The table is the list
of `(student_id, achievement_key)` pairs in insertion order. -/
def unlock_achievement (unlocked : List (Nat × String)) (sid : Nat)
    (key : String) : List (Nat × String) × Bool :=
  if unlocked.contains (sid, key) then (unlocked, false)
  else (unlocked ++ [(sid, key)], true)

/-- The `checks` dictionary of `db.check_achievements` (lines 516-532), in
its Python insertion order, evaluated against the student's history. -/
def achievement_checks (hist : List HistoryEntry) (sid : Nat) :
    List (String × Bool) :=
  let stats := get_gamification_stats hist sid
  let rows := hist.filter (fun h => h.student_id == sid)
  let correct := (rows.filter (fun h => h.is_correct)).length
  let total := rows.length
  let topics := ((rows.filterMap (fun h => h.topic)).dedup).length
  let scaffold_wins :=
    (rows.filter (fun h => h.is_correct && decide (h.scaffold_level > 0))).length
  [("first_correct", decide (correct ≥ 1)),
   ("ten_correct", decide (correct ≥ 10)),
   ("fifty_correct", decide (correct ≥ 50)),
   ("hundred_correct", decide (correct ≥ 100)),
   ("streak_3", decide (stats.best_streak ≥ 3)),
   ("streak_5", decide (stats.best_streak ≥ 5)),
   ("streak_10", decide (stats.best_streak ≥ 10)),
   ("try_3_topics", decide (topics ≥ 3)),
   ("try_5_topics", decide (topics ≥ 5)),
   ("ten_problems", decide (total ≥ 10)),
   ("fifty_problems", decide (total ≥ 50)),
   ("scaffold_win", decide (scaffold_wins ≥ 1)),
   ("scaffold_master", decide (scaffold_wins ≥ 5)),
   ("perfect_session_5", decide (stats.best_streak ≥ 5)),
   ("level_5", decide (stats.level ≥ 5))]

/-- The `for key, condition in checks.items()` loop of
`db.check_achievements` (lines 533-536): each satisfied check whose key is a
known achievement is inserted; keys whose insert succeeded are collected as
newly unlocked, in iteration order. -/
def runChecks (sid : Nat) (checks : List (String × Bool))
    (unlocked : List (Nat × String)) : List (Nat × String) × List String :=
  match checks with
  | [] => (unlocked, [])
  | (key, cond) :: rest =>
    if cond && ACHIEVEMENT_KEYS.contains key then
      let r := unlock_achievement unlocked sid key
      let rec' := runChecks sid rest r.1
      (rec'.1, if r.2 then key :: rec'.2 else rec'.2)
    else runChecks sid rest unlocked

/-- Function `db.check_achievements`: evaluate all achievement conditions against the
history and unlock the satisfied ones; returns the updated achievements
table and the list of keys newly unlocked by this call. -/
def check_achievements (hist : List HistoryEntry)
    (unlocked : List (Nat × String)) (sid : Nat) :
    List (Nat × String) × List String :=
  runChecks sid (achievement_checks hist sid) unlocked

/-! ## Answer parsing (`web_tutor.py` `check_answer_bg` lines 367-375)

The submitted text is fed to Python `int()`, then on failure to
`float()`.  The models below cover the decimal forms of those built-ins
(optional sign, digits, decimal point, exponent); exotic acceptances
(`inf`/`nan`, underscore digit separators, non-ASCII digits) are not
modelled — the theorems about answer checking are conditional on the
parse outcome, not on the exact lexical boundary. -/

def isAsciiDigit (c : Char) : Bool := '0' ≤ c && c ≤ '9'

/-- Value of a digit string, `none` unless it is nonempty and all digits. -/
def digitsToNat (cs : List Char) : Option Nat :=
  if cs.isEmpty then none
  else if cs.all isAsciiDigit then
    some (cs.foldl (fun a c => a * 10 + (c.toNat - 48)) 0)
  else none

/-- Value of a digit string read greedily (used after `takeWhile`). -/
def natOfDigits (cs : List Char) : Nat :=
  cs.foldl (fun a c => a * 10 + (c.toNat - 48)) 0

/-- Python `int(answer_str)`: optional sign followed by digits. -/
def parsePyInt (s : String) : Option Int :=
  match s.data with
  | '+' :: rest => (digitsToNat rest).map (fun n => (n : Int))
  | '-' :: rest => (digitsToNat rest).map (fun n => -(n : Int))
  | cs => (digitsToNat cs).map (fun n => (n : Int))

/-- Unsigned mantissa of a Python float literal: `digits [. digits]` or
`. digits`; returns its exact value and the unconsumed suffix. -/
def parseFloatMantissa (cs : List Char) : Option (ℚ × List Char) :=
  let ip := cs.takeWhile isAsciiDigit
  let rest1 := cs.dropWhile isAsciiDigit
  match rest1 with
  | '.' :: rest2 =>
      let fp := rest2.takeWhile isAsciiDigit
      let rest3 := rest2.dropWhile isAsciiDigit
      if ip.isEmpty && fp.isEmpty then none
      else some ((natOfDigits ip : ℚ) + (natOfDigits fp : ℚ) / (10 ^ fp.length), rest3)
  | _ =>
      if ip.isEmpty then none else some ((natOfDigits ip : ℚ), rest1)

/-- Exponent suffix of a Python float literal; must consume the whole
remainder. -/
def parseFloatExp (cs : List Char) : Option Int :=
  match cs with
  | [] => some 0
  | e :: rest =>
    if e = 'e' || e = 'E' then
      match rest with
      | '+' :: ds => (digitsToNat ds).map (fun n => (n : Int))
      | '-' :: ds => (digitsToNat ds).map (fun n => -(n : Int))
      | ds => (digitsToNat ds).map (fun n => (n : Int))
    else none

/-- Python `float(answer_str)` on decimal literals, as an exact rational. -/
def parsePyFloat (s : String) : Option ℚ :=
  let core : List Char → Option ℚ := fun cs =>
    match parseFloatMantissa cs with
    | none => none
    | some (m, rest) =>
      match parseFloatExp rest with
      | none => none
      | some e => some (m * (10 : ℚ) ^ e)
  match s.data with
  | '+' :: rest => core rest
  | '-' :: rest => (core rest).map (fun q => -q)
  | cs => core cs

/-- The `int`-first-then-`float` answer parse of `check_answer_bg`
(lines 368-375). -/
def parseAnswer (s : String) : Option ℚ :=
  match parsePyInt s with
  | some n => some ((n : ℚ))
  | none => parsePyFloat s

/-- Correctness test of `check_answer_bg` (lines 378-384):
`float(student_num) == float(correct_answer)`, with a `None` canonical
answer (and a canonical answer that does not convert to a number, folded
into `none` here) always incorrect. -/
def answerIsCorrect (student_num : ℚ) (correct_answer : Option ℚ) : Bool :=
  match correct_answer with
  | some ca => student_num == ca
  | none => false

/-! ## Session state (`web_tutor.py`: `current_problems`, `scaffold_states`)

The per-session entries of the module-level maps, for one session. -/

/-- The problem dict stored in `current_problems[session_id]`.
Normal problems carry no `is_scaffold`/`scaffold_level` keys and
`problem.get` defaults them to false/0, which the field defaults mirror. -/
structure Problem where
  question : String
  correct_answer : Option ℚ
  hint : String
  topic : Option String
  requested_topic : Option String
  is_scaffold : Bool := false
  scaffold_level : Nat := 0
deriving DecidableEq

/-- Parsed misconception-analysis output (the four fields the analyst
prompt requests). -/
structure MiscResult where
  misconception_type : String
  misconception_detail : String
  scaffold_topic : String
  scaffold_hint : String
deriving DecidableEq

/-- The dict stored in `scaffold_states[session_id]`
(`check_answer_bg` lines 624-630). -/
structure ScaffoldCtx where
  misconception : MiscResult
  scaffold_level : Nat
  parent_history_id : Nat
  topic : Option String
  original_question : String
deriving DecidableEq

/-- The in-memory state of one session. -/
structure SessionState where
  currentProblem : Option Problem
  scaffoldCtx : Option ScaffoldCtx
deriving DecidableEq

/-- SSE events sent by `send_event` that the claims refer to.  The
`feedback` payload is reduced to the flags the specification names
(`is_correct`, `scaffold_complete`, `scaffold_maxed`, `analyzing`); the
gamification numbers it also carries are recomputed by
`get_gamification_stats`, modelled separately. -/
inductive Event where
  | errorMsg (msg : String)
  | pipeline
  | problem (p : Problem)
  | feedback (is_correct scaffold_complete scaffold_maxed analyzing : Bool)
  | scaffold_ready (misconception_type : String) (scaffold_level : Nat)
deriving DecidableEq

/-- Side effects of a background worker, in program order: database writes,
LLM generation calls, and sent events. -/
inductive Effect where
  | saveHistory (e : HistoryEntry)
  | genFeedback
  | updateFeedback (id : Nat)
  | genAnalysis
  | updateMisconception (id : Nat)
  | send (ev : Event)
deriving DecidableEq

/-- Fallback misconception used when the analyst output cannot be parsed
(`check_answer_bg` lines 604-610). -/
def fallbackMisconception (topic : Option String) : MiscResult :=
  { misconception_type := "unknown"
    misconception_detail := "Could not determine the specific error"
    scaffold_topic := topic.getD "General math"
    scaffold_hint := "Try thinking step by step!" }

/-- Function `web_tutor.check_answer_bg` (lines 353-643) for one session.
Inputs that the real code obtains from LLM calls are parameters:
`feedbackText` is the helper agent's output, `analystMisc` is the parsed
analyst output (`none` models an unparseable analyst reply).
Returns the new session state, the new history table, and the ordered list
of effects the call performs.  (`student_answer` is stored via `toString`;
Python's `str()` formats numbers differently, which no claim depends on.) -/
def check_answer (sid : Nat) (ss : SessionState) (hist : List HistoryEntry)
    (answer_str feedbackText : String) (analystMisc : Option MiscResult) :
    SessionState × List HistoryEntry × List Effect :=
  match ss.currentProblem with
  | none => (ss, hist, [.send (.errorMsg "No active problem")])
  | some problem =>
    match parseAnswer answer_str with
    | none => (ss, hist, [.send (.errorMsg "Please enter a number")])
    | some student_num =>
      let is_correct := answerIsCorrect student_num problem.correct_answer
      let parent_history_id := ss.scaffoldCtx.map (fun c => c.parent_history_id)
      let entry : HistoryEntry :=
        { student_id := sid
          question := problem.question
          correct_answer := problem.correct_answer
          student_answer := toString student_num
          is_correct := is_correct
          topic := problem.topic
          requested_topic := problem.requested_topic
          feedback := none
          weakness := if is_correct then none else some "needs review"
          misconception_type := none
          misconception_detail := none
          scaffold_level := problem.scaffold_level
          scaffold_parent_id := parent_history_id }
      let hist' := hist ++ [entry]
      let history_id := hist'.length
      let effsCommon : List Effect :=
        [.saveHistory entry, .send .pipeline, .genFeedback,
         .updateFeedback history_id, .send .pipeline]
      if is_correct then
        if problem.is_scaffold then
          ({ ss with scaffoldCtx := none }, hist',
            effsCommon ++ [.send (.feedback true true false false)])
        else
          (ss, hist', effsCommon ++ [.send (.feedback true false false false)])
      else
        if problem.scaffold_level ≥ 2 then
          ({ ss with scaffoldCtx := none }, hist',
            effsCommon ++ [.send (.feedback false false true false)])
        else
          let misconception := analystMisc.getD (fallbackMisconception problem.topic)
          let next_level := problem.scaffold_level + 1
          let ctx : ScaffoldCtx :=
            { misconception := misconception
              scaffold_level := next_level
              parent_history_id := parent_history_id.getD history_id
              topic := problem.topic
              original_question := problem.question }
          ({ ss with scaffoldCtx := some ctx }, hist',
            effsCommon ++
              [.send (.feedback false false false true), .send .pipeline,
               .genAnalysis, .send .pipeline, .updateMisconception history_id,
               .send (.scaffold_ready misconception.misconception_type next_level)])

/-- Route `api_new_problem` + `generate_problem_bg`: requesting a fresh problem
clears the scaffold context (`web_tutor.py` line 850) and installs the
generated (or bank-reused) problem, which carries no scaffold keys and the
requested topic (lines 271-276, 325-346). -/
def new_problem (ss : SessionState) (q : String) (ca : Option ℚ)
    (hint : String) (topic reqTopic : Option String) : SessionState :=
  { currentProblem := some
      { question := q, correct_answer := ca, hint := hint,
        topic := topic, requested_topic := reqTopic },
    scaffoldCtx := none }

/-- Route `api_scaffold_problem` + `generate_scaffold_problem_bg`: requires a
scaffold context; installs a problem flagged `is_scaffold` at the depth
recorded in the context (lines 748-752).  The context itself is not
cleared. -/
def scaffold_problem (ss : SessionState) (q : String) (ca : Option ℚ)
    (hint : String) (topic : Option String) : SessionState × List Effect :=
  match ss.scaffoldCtx with
  | none => (ss, [.send (.errorMsg "No scaffold context")])
  | some ctx =>
    let p : Problem :=
      { question := q, correct_answer := ca, hint := hint, topic := topic,
        requested_topic := none, is_scaffold := true,
        scaffold_level := ctx.scaffold_level }
    ({ ss with currentProblem := some p }, [.send .pipeline, .send (.problem p)])

/-- The history row written by `api_skip` (`web_tutor.py` lines 908-918):
an incorrect entry with `student_answer = "skipped"`; `save_result` is
called without `scaffold_level`/`scaffold_parent_id`, so their defaults 0
and NULL apply. -/
def skipEntry (sid : Nat) (p : Problem) : HistoryEntry :=
  { student_id := sid
    question := p.question
    correct_answer := p.correct_answer
    student_answer := "skipped"
    is_correct := false
    topic := p.topic
    requested_topic := p.requested_topic
    feedback := none
    weakness := some "skipped"
    misconception_type := none
    misconception_detail := none
    scaffold_level := 0
    scaffold_parent_id := none }

/-- Function `web_tutor.api_skip` (lines 901-928): write the skip row when a problem
is active, then return the recomputed gamification snapshot. -/
def api_skip (sid : Nat) (cur : Option Problem) (hist : List HistoryEntry) :
    List HistoryEntry × GamStats :=
  let hist' := match cur with
    | some p => hist ++ [skipEntry sid p]
    | none => hist
  (hist', get_gamification_stats hist' sid)

/-! ## The session transition system -/

/-- One user-facing action on a session, with the external
nondeterminism (LLM outputs, submitted text) as payload.
`newProblemFailed` models a problem-generation attempt that raised after
`api_new_problem` had already cleared the scaffold context. -/
inductive Action where
  | newProblem (q : String) (ca : Option ℚ) (hint : String)
      (topic reqTopic : Option String)
  | newProblemFailed
  | submitAnswer (sid : Nat) (answer feedbackText : String)
      (analystMisc : Option MiscResult)
  | scaffoldProblem (q : String) (ca : Option ℚ) (hint : String)
      (topic : Option String)
  | skip (sid : Nat)

/-- Effect of one action on the session state and the history table. -/
def applyAction (c : SessionState × List HistoryEntry) (a : Action) :
    SessionState × List HistoryEntry :=
  match a with
  | .newProblem q ca hint topic reqTopic =>
      (new_problem c.1 q ca hint topic reqTopic, c.2)
  | .newProblemFailed => ({ c.1 with scaffoldCtx := none }, c.2)
  | .submitAnswer sid ans fb misc =>
      let r := check_answer sid c.1 c.2 ans fb misc
      (r.1, r.2.1)
  | .scaffoldProblem q ca hint topic =>
      ((scaffold_problem c.1 q ca hint topic).1, c.2)
  | .skip sid => (c.1, (api_skip sid c.1.currentProblem c.2).1)

/-- Run a sequence of actions. -/
def runActions (c : SessionState × List HistoryEntry) (as : List Action) :
    SessionState × List HistoryEntry :=
  as.foldl applyAction c

/-- The initial configuration of a fresh session: no problem, no scaffold
context, empty history. -/
def initConfig : SessionState × List HistoryEntry := (⟨none, none⟩, [])

/-- A configuration the session system can actually be in. -/
def ReachableConfig (c : SessionState × List HistoryEntry) : Prop :=
  ∃ as : List Action, runActions initConfig as = c

/-! ## Lenient JSON parsing (`web_tutor._parse_json_lenient`)

`json.loads` of the Python standard library is modelled by a recursive
descent parser over the character list of the input, covering the JSON
grammar plus the `NaN`/`Infinity`/`-Infinity` constants CPython accepts by
default.  Numbers are kept as their lexemes (the claim compares results of
the same parser, never numeric values); `\uXXXX` escapes are decoded
without surrogate-pair combination (acceptance is unaffected).  A parse
failure (`json.JSONDecodeError`) is `none`. -/

/-- JSON whitespace (`json.decoder`: space, tab, newline, carriage
return). -/
def jsonWs (c : Char) : Bool :=
  c = ' ' || c = Char.ofNat 9 || c = Char.ofNat 10 || c = Char.ofNat 13

/-- Drop leading JSON whitespace. -/
def skipWs : List Char → List Char
  | [] => []
  | c :: rest => if jsonWs c then skipWs rest else c :: rest

/-- The characters that may follow a backslash in a JSON string, exactly
the set in the sanitizing pattern of `_parse_json_lenient`
(`web_tutor.py` line 35). -/
def isJsonEscapeChar (c : Char) : Bool :=
  c = '"' || c = '\\' || c = '/' || c = 'b' || c = 'f' ||
    c = 'n' || c = 'r' || c = 't' || c = 'u'

def isHexDigit (c : Char) : Bool :=
  ('0' ≤ c && c ≤ '9') || ('a' ≤ c && c ≤ 'f') || ('A' ≤ c && c ≤ 'F')

def hexVal (c : Char) : Nat :=
  if '0' ≤ c && c ≤ '9' then c.toNat - 48
  else if 'a' ≤ c && c ≤ 'f' then c.toNat - 87
  else c.toNat - 55

/-- Decoded `\uXXXX` escape (surrogate halves decode to the null character
via `Char.ofNat`; only the decoded value, not acceptance, is affected). -/
def hexChar (h1 h2 h3 h4 : Char) : Char :=
  Char.ofNat (hexVal h1 * 4096 + hexVal h2 * 256 + hexVal h3 * 16 + hexVal h4)

/-- Value of a single-character JSON string escape. -/
def unescapeChar (c : Char) : Char :=
  if c = 'b' then Char.ofNat 8
  else if c = 'f' then Char.ofNat 12
  else if c = 'n' then Char.ofNat 10
  else if c = 'r' then Char.ofNat 13
  else if c = 't' then Char.ofNat 9
  else c

/-- Body of a JSON string literal, after the opening quote: decoded
content and the remainder after the closing quote.  Escapes must be from
the recognized set, `\u` needs four hex digits, and raw control characters
are rejected (strict `json.loads`). -/
def parseStringBody : List Char → Option (List Char × List Char)
  | [] => none
  | c :: rest =>
    if c = '"' then some ([], rest)
    else if c = '\\' then
      match rest with
      | [] => none
      | d :: rest' =>
        if d = 'u' then
          match rest' with
          | h1 :: h2 :: h3 :: h4 :: rest2 =>
            if isHexDigit h1 && isHexDigit h2 && isHexDigit h3 && isHexDigit h4 then
              match parseStringBody rest2 with
              | some (s, rem) => some (hexChar h1 h2 h3 h4 :: s, rem)
              | none => none
            else none
          | _ => none
        else if isJsonEscapeChar d then
          match parseStringBody rest' with
          | some (s, rem) => some (unescapeChar d :: s, rem)
          | none => none
        else none
    else if c.toNat < 32 then none
    else
      match parseStringBody rest with
      | some (s, rem) => some (c :: s, rem)
      | none => none

/-- Integer part of a JSON number: `0` or a nonzero digit followed by
digits (leading zeros are not allowed by the JSON grammar). -/
def parseIntLexeme (cs : List Char) : Option (List Char × List Char) :=
  match cs with
  | [] => none
  | c :: rest =>
    if c = '0' then some (['0'], rest)
    else if '1' ≤ c && c ≤ '9' then
      some (c :: rest.takeWhile isAsciiDigit, rest.dropWhile isAsciiDigit)
    else none

/-- Optional fraction part `.digits`; consumed nothing when absent or
malformed (the number token simply ends, as with the scanner's regular
expression). -/
def parseFracOpt (cs : List Char) : List Char × List Char :=
  match cs with
  | [] => ([], [])
  | c :: rest =>
    if c = '.' then
      if rest.takeWhile isAsciiDigit = [] then ([], c :: rest)
      else ('.' :: rest.takeWhile isAsciiDigit, rest.dropWhile isAsciiDigit)
    else ([], c :: rest)

/-- Optional exponent part `(e|E)[+-]?digits`; consumed nothing when
absent or malformed. -/
def parseExpOpt (cs : List Char) : List Char × List Char :=
  match cs with
  | [] => ([], [])
  | e :: rest =>
    if e = 'e' || e = 'E' then
      match rest with
      | [] => ([], e :: rest)
      | s :: rest2 =>
        if s = '+' || s = '-' then
          if rest2.takeWhile isAsciiDigit = [] then ([], e :: s :: rest2)
          else (e :: s :: rest2.takeWhile isAsciiDigit, rest2.dropWhile isAsciiDigit)
        else
          if rest.takeWhile isAsciiDigit = [] then ([], e :: rest)
          else (e :: rest.takeWhile isAsciiDigit, rest.dropWhile isAsciiDigit)
    else ([], e :: rest)

/-- An unsigned JSON number token: integer part, then the optional
fraction and exponent parts. -/
def parseNumberBody (cs : List Char) : Option (List Char × List Char) :=
  match parseIntLexeme cs with
  | none => none
  | some (ip, r1) =>
    some (ip ++ (parseFracOpt r1).1 ++ (parseExpOpt (parseFracOpt r1).2).1,
          (parseExpOpt (parseFracOpt r1).2).2)

/-- A JSON number token with optional leading minus: lexeme and
remainder. -/
def parseNumber (cs : List Char) : Option (List Char × List Char) :=
  match cs with
  | [] => none
  | c :: rest =>
    if c = '-' then
      match parseNumberBody rest with
      | some (lex, rem) => some ('-' :: lex, rem)
      | none => none
    else parseNumberBody (c :: rest)

/-- A parsed JSON value.  Numbers keep their lexeme; object members keep
source order. -/
inductive Json where
  | null
  | bool (b : Bool)
  | num (lexeme : List Char)
  | str (s : List Char)
  | arr (elems : List Json)
  | obj (members : List (List Char × Json))

/-- Consume the literal keyword `kw` (CPython's scanner dispatches on the
first character and then matches the constant literally). -/
def stripKeyword (kw cs : List Char) : Option (List Char) :=
  match kw, cs with
  | [], rest => some rest
  | k :: kw', c :: cs' => if c = k then stripKeyword kw' cs' else none
  | _ :: _, [] => none

mutual

/-- Parse one JSON value at the head of `cs` (whitespace already
skipped). -/
def parseValue (fuel : Nat) (cs : List Char) : Option (Json × List Char) :=
  match fuel with
  | 0 => none
  | fuel' + 1 =>
    match cs with
    | [] => none
    | c :: rest =>
      if c = '"' then
        match parseStringBody rest with
        | some (s, rem) => some (.str s, rem)
        | none => none
      else if c = '{' then
        match skipWs rest with
        | [] => none
        | d :: rem =>
          if d = '}' then some (.obj [], rem)
          else
            match parseMembers fuel' (d :: rem) with
            | some (ms, rem2) => some (.obj ms, rem2)
            | none => none
      else if c = '[' then
        match skipWs rest with
        | [] => none
        | d :: rem =>
          if d = ']' then some (.arr [], rem)
          else
            match parseElems fuel' (d :: rem) with
            | some (es, rem2) => some (.arr es, rem2)
            | none => none
      else
        match stripKeyword ['n', 'u', 'l', 'l'] cs with
        | some rem => some (.null, rem)
        | none =>
        match stripKeyword ['t', 'r', 'u', 'e'] cs with
        | some rem => some (.bool true, rem)
        | none =>
        match stripKeyword ['f', 'a', 'l', 's', 'e'] cs with
        | some rem => some (.bool false, rem)
        | none =>
        match stripKeyword ['N', 'a', 'N'] cs with
        | some rem => some (.num ['N', 'a', 'N'], rem)
        | none =>
        match stripKeyword ['I', 'n', 'f', 'i', 'n', 'i', 't', 'y'] cs with
        | some rem => some (.num ['I', 'n', 'f', 'i', 'n', 'i', 't', 'y'], rem)
        | none =>
        match stripKeyword ['-', 'I', 'n', 'f', 'i', 'n', 'i', 't', 'y'] cs with
        | some rem => some (.num ['-', 'I', 'n', 'f', 'i', 'n', 'i', 't', 'y'], rem)
        | none =>
        match parseNumber cs with
        | some (lex, rem) => some (.num lex, rem)
        | none => none

/-- Parse the non-empty element list of an array, up to and including the
closing bracket. -/
def parseElems (fuel : Nat) (cs : List Char) : Option (List Json × List Char) :=
  match fuel with
  | 0 => none
  | fuel' + 1 =>
    match parseValue fuel' cs with
    | none => none
    | some (v, rest) =>
      match skipWs rest with
      | [] => none
      | d :: r2 =>
        if d = ',' then
          match parseElems fuel' (skipWs r2) with
          | some (vs, rem) => some (v :: vs, rem)
          | none => none
        else if d = ']' then some ([v], r2)
        else none

/-- Parse the non-empty member list of an object, up to and including the
closing brace. -/
def parseMembers (fuel : Nat) (cs : List Char) :
    Option (List (List Char × Json) × List Char) :=
  match fuel with
  | 0 => none
  | fuel' + 1 =>
    match cs with
    | [] => none
    | c :: rest =>
      if c = '"' then
        match parseStringBody rest with
        | none => none
        | some (key, r1) =>
          match skipWs r1 with
          | [] => none
          | d :: r2 =>
            if d = ':' then
              match parseValue fuel' (skipWs r2) with
              | none => none
              | some (v, r3) =>
                match skipWs r3 with
                | [] => none
                | e :: r4 =>
                  if e = ',' then
                    match parseMembers fuel' (skipWs r4) with
                    | some (ms, rem) => some ((key, v) :: ms, rem)
                    | none => none
                  else if e = '}' then some ([(key, v)], r4)
                  else none
            else none
      else none

end

/-- Strict `json.loads`: parse one value surrounded by optional
whitespace; trailing content is an error.  The fuel bound
`2 * length + 2` dominates the recursion depth, which grows by at most two
per consumed character. -/
def json_loads (s : String) : Option Json :=
  match parseValue (2 * s.data.length + 2) (skipWs s.data) with
  | some (v, rest) => if skipWs rest = [] then some v else none
  | none => none

/-- The substitution `re.sub(r'\\(?!["\\/bfnrtu])', r'\\\\', raw)` of
`_parse_json_lenient` (line 35): scanning left to right, a backslash whose
next character is not a recognized escape character (or which ends the
string) is doubled; after a failed match the scan advances one
character. -/
def sanitizeAux : List Char → List Char
  | [] => []
  | c :: rest =>
    if c = '\\' then
      match rest with
      | [] => [c, c]
      | d :: _ =>
        if isJsonEscapeChar d then c :: sanitizeAux rest
        else c :: c :: sanitizeAux rest
    else c :: sanitizeAux rest

/-- The sanitized string of `_parse_json_lenient`. -/
def sanitize (s : String) : String := ⟨sanitizeAux s.data⟩

/-- The precondition of the parser claim: the text contains an unescaped
backslash followed by a character that is not a recognized JSON escape
character.  Scanning left to right, a backslash followed by an escape
character consumes both (so the second of a `\\` pair is escaped, not
unescaped); any other backslash followed by a character is the sought
occurrence. -/
def hasInvalidEscape : List Char → Bool
  | [] => false
  | [_] => false
  | c :: d :: rest =>
    if c = '\\' then
      if isJsonEscapeChar d then hasInvalidEscape rest else true
    else hasInvalidEscape (d :: rest)

/-- Function `web_tutor._parse_json_lenient` (lines 27-36): strict parse, and on
failure parse the sanitized text; a failure of the second parse
propagates. -/
def parse_json_lenient (raw : String) : Option Json :=
  match json_loads raw with
  | some v => some v
  | none => json_loads (sanitize raw)

/-! ### No accepted text contains an unescaped invalid escape

The parser consumes backslashes only inside string literals, and there only
as part of a recognized escape; consequently a successful strict parse
rules out `hasInvalidEscape`. -/

theorem hie_cons_of_ne (c : Char) (rest : List Char) (h : ¬ c = '\\') :
    hasInvalidEscape (c :: rest) = hasInvalidEscape rest := by
  match rest with
  | [] => rfl
  | d :: rest' => rw [hasInvalidEscape, if_neg h]

/-- The suffix `rest` is obtained from `cs` by consuming backslash-free
characters. -/
def ConsumesOnlyPlain (cs rest : List Char) : Prop :=
  ∃ pre, cs = pre ++ rest ∧ ∀ c ∈ pre, ¬ c = '\\'

theorem consumesOnlyPlain_refl (cs : List Char) : ConsumesOnlyPlain cs cs :=
  ⟨[], rfl, fun c hc => absurd hc (List.not_mem_nil c)⟩

theorem consumesOnlyPlain_trans {a b c : List Char}
    (h1 : ConsumesOnlyPlain a b) (h2 : ConsumesOnlyPlain b c) :
    ConsumesOnlyPlain a c := by
  obtain ⟨p1, rfl, hp1⟩ := h1
  obtain ⟨p2, rfl, hp2⟩ := h2
  exact ⟨p1 ++ p2, by simp, by
    intro x hx
    rcases List.mem_append.mp hx with h | h
    · exact hp1 x h
    · exact hp2 x h⟩

theorem hie_of_consumesOnlyPlain {cs rest : List Char}
    (h : ConsumesOnlyPlain cs rest) :
    hasInvalidEscape cs = hasInvalidEscape rest := by
  obtain ⟨pre, rfl, hpre⟩ := h
  induction pre with
  | nil => rfl
  | cons c pre ih =>
    rw [List.cons_append, hie_cons_of_ne _ _ (hpre c (by simp))]
    exact ih (fun x hx => hpre x (by simp [hx]))

theorem digit_ne_bs {c : Char} (h : isAsciiDigit c = true) : ¬ c = '\\' := by
  intro he; subst he; exact absurd h (by decide)

theorem consumesOnlyPlain_takeWhile_digits (cs : List Char) :
    ConsumesOnlyPlain cs (cs.dropWhile isAsciiDigit) :=
  ⟨cs.takeWhile isAsciiDigit, (List.takeWhile_append_dropWhile _ _).symm,
    fun c hc => digit_ne_bs (List.mem_takeWhile_imp hc)⟩

theorem skipWs_clean (cs : List Char) :
    hasInvalidEscape (skipWs cs) = hasInvalidEscape cs := by
  induction cs with
  | nil => rfl
  | cons c rest ih =>
    rw [skipWs]
    by_cases hw : jsonWs c = true
    · have hc : ¬ c = '\\' := by
        intro he; subst he; exact absurd hw (by decide)
      rw [if_pos hw, ih, hie_cons_of_ne _ _ hc]
    · rw [if_neg hw]

theorem parseIntLexeme_clean {cs ip rest : List Char}
    (h : parseIntLexeme cs = some (ip, rest)) : ConsumesOnlyPlain cs rest := by
  match cs with
  | [] => simp [parseIntLexeme] at h
  | c :: cs' =>
    rw [parseIntLexeme] at h
    by_cases h0 : c = '0'
    · rw [if_pos h0] at h
      obtain ⟨rfl, rfl⟩ : ['0'] = ip ∧ cs' = rest := by
        simpa using h
      exact ⟨[c], rfl, by simp [h0]⟩
    · rw [if_neg h0] at h
      by_cases h9 : ('1' ≤ c && c ≤ '9') = true
      · rw [if_pos h9] at h
        obtain ⟨rfl, rfl⟩ : c :: cs'.takeWhile isAsciiDigit = ip ∧
            cs'.dropWhile isAsciiDigit = rest := by simpa using h
        refine ⟨c :: cs'.takeWhile isAsciiDigit, by
          simp [List.takeWhile_append_dropWhile], ?_⟩
        intro x hx
        rcases List.mem_cons.mp hx with rfl | hx
        · intro he; subst he; exact absurd h9 (by decide)
        · exact digit_ne_bs (List.mem_takeWhile_imp hx)
      · rw [if_neg h9] at h; exact absurd h (by simp)

theorem parseFracOpt_clean (cs : List Char) :
    ConsumesOnlyPlain cs (parseFracOpt cs).2 := by
  match cs with
  | [] => exact consumesOnlyPlain_refl _
  | c :: rest =>
    rw [parseFracOpt]
    by_cases hdot : c = '.'
    · rw [if_pos hdot]
      by_cases hds : rest.takeWhile isAsciiDigit = []
      · rw [if_pos hds]; exact consumesOnlyPlain_refl _
      · rw [if_neg hds]
        refine ⟨'.' :: rest.takeWhile isAsciiDigit, ?_, ?_⟩
        · simp [hdot, List.takeWhile_append_dropWhile]
        · intro x hx
          rcases List.mem_cons.mp hx with rfl | hx
          · decide
          · exact digit_ne_bs (List.mem_takeWhile_imp hx)
    · rw [if_neg hdot]; exact consumesOnlyPlain_refl _

theorem parseExpOpt_clean (cs : List Char) :
    ConsumesOnlyPlain cs (parseExpOpt cs).2 := by
  match cs with
  | [] => exact consumesOnlyPlain_refl _
  | e :: rest =>
    rw [parseExpOpt.eq_def]
    simp only []
    by_cases he : (e = 'e' || e = 'E') = true
    · rw [if_pos he]
      have hebs : ¬ e = '\\' := by
        intro h2; subst h2; exact absurd he (by decide)
      match rest with
      | [] => exact consumesOnlyPlain_refl _
      | s :: rest2 =>
        simp only []
        by_cases hs : (s = '+' || s = '-') = true
        · rw [if_pos hs]
          by_cases hds : rest2.takeWhile isAsciiDigit = []
          · rw [if_pos hds]; exact consumesOnlyPlain_refl _
          · rw [if_neg hds]
            refine ⟨e :: s :: rest2.takeWhile isAsciiDigit, ?_, ?_⟩
            · simp [List.takeWhile_append_dropWhile]
            · intro x hx
              rcases List.mem_cons.mp hx with rfl | hx
              · exact hebs
              · rcases List.mem_cons.mp hx with rfl | hx
                · intro h2; subst h2; exact absurd hs (by decide)
                · exact digit_ne_bs (List.mem_takeWhile_imp hx)
        · rw [if_neg hs]
          by_cases hds : (s :: rest2).takeWhile isAsciiDigit = []
          · rw [if_pos hds]; exact consumesOnlyPlain_refl _
          · rw [if_neg hds]
            refine ⟨e :: (s :: rest2).takeWhile isAsciiDigit, ?_, ?_⟩
            · simp [List.takeWhile_append_dropWhile]
            · intro x hx
              rcases List.mem_cons.mp hx with rfl | hx
              · exact hebs
              · exact digit_ne_bs (List.mem_takeWhile_imp hx)
    · rw [if_neg he]; exact consumesOnlyPlain_refl _

theorem parseNumberBody_clean {cs lex rest : List Char}
    (h : parseNumberBody cs = some (lex, rest)) : ConsumesOnlyPlain cs rest := by
  rw [parseNumberBody] at h
  cases hil : parseIntLexeme cs with
  | none => rw [hil] at h; exact absurd h (by simp)
  | some pr =>
    obtain ⟨ip, r1⟩ := pr
    rw [hil] at h
    cases h
    exact consumesOnlyPlain_trans (parseIntLexeme_clean hil)
      (consumesOnlyPlain_trans (parseFracOpt_clean r1)
        (parseExpOpt_clean (parseFracOpt r1).2))

theorem parseNumber_clean {cs lex rest : List Char}
    (h : parseNumber cs = some (lex, rest)) : ConsumesOnlyPlain cs rest := by
  match cs with
  | [] => rw [parseNumber] at h; exact absurd h (by simp)
  | c :: cs' =>
    rw [parseNumber] at h
    by_cases hneg : c = '-'
    · rw [if_pos hneg] at h
      cases hb : parseNumberBody cs' with
      | none => rw [hb] at h; exact absurd h (by simp)
      | some pr =>
        obtain ⟨lx, rm⟩ := pr
        rw [hb] at h
        cases h
        refine consumesOnlyPlain_trans ⟨[c], rfl, ?_⟩ (parseNumberBody_clean hb)
        intro x hx
        rcases List.mem_cons.mp hx with rfl | hx
        · subst hneg; decide
        · exact absurd hx (List.not_mem_nil x)
    · rw [if_neg hneg] at h
      exact parseNumberBody_clean h

theorem hex_ne_bs {c : Char} (h : isHexDigit c = true) : ¬ c = '\\' := by
  intro he; subst he; exact absurd h (by decide)

theorem hie_escape_pair (d : Char) (rest : List Char)
    (hd : isJsonEscapeChar d = true) :
    hasInvalidEscape ('\\' :: d :: rest) = hasInvalidEscape rest := by
  rw [hasInvalidEscape, if_pos rfl, if_pos hd]

theorem parseStringBody_clean_aux :
    ∀ (n : Nat) (cs : List Char), cs.length ≤ n → ∀ s rem,
      parseStringBody cs = some (s, rem) →
      hasInvalidEscape cs = hasInvalidEscape rem := by
  intro n
  induction n with
  | zero =>
    intro cs hlen s rem h
    match cs with
    | [] => exact absurd h (by simp [parseStringBody])
    | c :: rest => simp at hlen
  | succ n ih =>
    intro cs hlen s rem h
    match cs with
    | [] => exact absurd h (by simp [parseStringBody])
    | c :: rest =>
      have hlen' : rest.length ≤ n := by simpa using hlen
      rw [parseStringBody.eq_def] at h
      simp only [] at h
      by_cases hq : c = '"'
      · rw [if_pos hq] at h
        cases h
        subst hq
        exact hie_cons_of_ne _ _ (by decide)
      · rw [if_neg hq] at h
        by_cases hbs : c = '\\'
        · rw [if_pos hbs] at h
          match rest with
          | [] => exact absurd h (by simp)
          | d :: rest' =>
            simp only [] at h
            by_cases hu : d = 'u'
            · rw [if_pos hu] at h
              match rest' with
              | [] => exact absurd h (by simp)
              | [h1] => exact absurd h (by simp)
              | [h1, h2] => exact absurd h (by simp)
              | [h1, h2, h3] => exact absurd h (by simp)
              | h1 :: h2 :: h3 :: h4 :: rest2 =>
                simp only [] at h
                by_cases hhex : (isHexDigit h1 && isHexDigit h2 && isHexDigit h3
                    && isHexDigit h4) = true
                · rw [if_pos hhex] at h
                  cases hpsb : parseStringBody rest2 with
                  | none => rw [hpsb] at h; exact absurd h (by simp)
                  | some pr =>
                    obtain ⟨s', rem'⟩ := pr
                    rw [hpsb] at h
                    cases h
                    have hb1 : isHexDigit h1 = true := by
                      simp only [Bool.and_eq_true] at hhex; exact hhex.1.1.1
                    have hb2 : isHexDigit h2 = true := by
                      simp only [Bool.and_eq_true] at hhex; exact hhex.1.1.2
                    have hb3 : isHexDigit h3 = true := by
                      simp only [Bool.and_eq_true] at hhex; exact hhex.1.2
                    have hb4 : isHexDigit h4 = true := by
                      simp only [Bool.and_eq_true] at hhex; exact hhex.2
                    subst hbs hu
                    rw [hie_escape_pair _ _ (by decide),
                        hie_cons_of_ne _ _ (hex_ne_bs hb1),
                        hie_cons_of_ne _ _ (hex_ne_bs hb2),
                        hie_cons_of_ne _ _ (hex_ne_bs hb3),
                        hie_cons_of_ne _ _ (hex_ne_bs hb4)]
                    exact ih rest2 (by simp at hlen'; omega) _ _ hpsb
                · rw [if_neg hhex] at h; exact absurd h (by simp)
            · rw [if_neg hu] at h
              by_cases hd : isJsonEscapeChar d = true
              · rw [if_pos hd] at h
                cases hpsb : parseStringBody rest' with
                | none => rw [hpsb] at h; exact absurd h (by simp)
                | some pr =>
                  obtain ⟨s', rem'⟩ := pr
                  rw [hpsb] at h
                  cases h
                  subst hbs
                  rw [hie_escape_pair _ _ hd]
                  exact ih rest' (by simp at hlen'; omega) _ _ hpsb
              · rw [if_neg hd] at h; exact absurd h (by simp)
        · rw [if_neg hbs] at h
          by_cases hctl : c.toNat < 32
          · rw [if_pos hctl] at h; exact absurd h (by simp)
          · rw [if_neg hctl] at h
            cases hpsb : parseStringBody rest with
            | none => rw [hpsb] at h; exact absurd h (by simp)
            | some pr =>
              obtain ⟨s', rem'⟩ := pr
              rw [hpsb] at h
              cases h
              rw [hie_cons_of_ne _ _ hbs]
              exact ih rest hlen' _ _ hpsb

theorem parseStringBody_clean {cs s rem : List Char}
    (h : parseStringBody cs = some (s, rem)) :
    hasInvalidEscape cs = hasInvalidEscape rem :=
  parseStringBody_clean_aux cs.length cs le_rfl s rem h

theorem hie_skipWs_eq {a b : List Char} (hab : skipWs a = b) :
    hasInvalidEscape a = hasInvalidEscape b := by rw [← hab, skipWs_clean]

/-- Joint statement for the three mutually recursive parsing functions:
whatever text a successful parse consumes contains no unescaped invalid
escape (formally, `hasInvalidEscape` of the input equals that of the
unconsumed remainder). -/
theorem stripKeyword_clean {kw cs rem : List Char}
    (hno : ∀ c ∈ kw, ¬ c = '\\') (h : stripKeyword kw cs = some rem) :
    hasInvalidEscape cs = hasInvalidEscape rem := by
  induction kw generalizing cs with
  | nil => rw [stripKeyword] at h; cases h; rfl
  | cons k kw' ih =>
    match cs with
    | [] => rw [stripKeyword] at h; exact absurd h (by simp)
    | c :: cs' =>
      rw [stripKeyword] at h
      by_cases hc : c = k
      · rw [if_pos hc] at h
        rw [hie_cons_of_ne _ _ (by rw [hc]; exact hno k (by simp))]
        exact ih (fun x hx => hno x (by simp [hx])) h
      · rw [if_neg hc] at h; exact absurd h (by simp)

set_option maxHeartbeats 1000000 in
/-- Joint statement for the three mutually recursive parsing functions:
whatever text a successful parse consumes contains no unescaped invalid
escape (formally, `hasInvalidEscape` of the input equals that of the
unconsumed remainder). -/
theorem parser_clean : ∀ fuel : Nat,
    (∀ cs v rest, parseValue fuel cs = some (v, rest) →
      hasInvalidEscape cs = hasInvalidEscape rest) ∧
    (∀ cs vs rest, parseElems fuel cs = some (vs, rest) →
      hasInvalidEscape cs = hasInvalidEscape rest) ∧
    (∀ cs ms rest, parseMembers fuel cs = some (ms, rest) →
      hasInvalidEscape cs = hasInvalidEscape rest) := by
  intro fuel
  induction fuel with
  | zero =>
    refine ⟨?_, ?_, ?_⟩ <;> intro cs x rest h
    · rw [parseValue.eq_def] at h; simp at h
    · rw [parseElems.eq_def] at h; simp at h
    · rw [parseMembers.eq_def] at h; simp at h
  | succ fuel ih =>
    obtain ⟨ihV, ihE, ihM⟩ := ih
    refine ⟨?_, ?_, ?_⟩
    · intro cs v rest h
      rw [parseValue.eq_def] at h
      simp only [] at h
      match cs with
      | [] => exact absurd h (by simp)
      | c :: rest1 =>
        simp only [] at h
        by_cases hq : c = '"'
        · rw [if_pos hq] at h
          cases hpsb : parseStringBody rest1 with
          | none => rw [hpsb] at h; exact absurd h (by simp)
          | some pr =>
            obtain ⟨s, rem⟩ := pr
            rw [hpsb] at h
            cases h
            subst hq
            rw [hie_cons_of_ne _ _ (by decide)]
            exact parseStringBody_clean hpsb
        · rw [if_neg hq] at h
          by_cases hbrace : c = '{'
          · rw [if_pos hbrace] at h
            cases hws : skipWs rest1 with
            | nil => rw [hws] at h; exact absurd h (by simp)
            | cons d rem =>
              rw [hws] at h
              simp only [] at h
              by_cases hd : d = '}'
              · rw [if_pos hd] at h
                cases h
                subst hbrace hd
                rw [hie_cons_of_ne _ _ (by decide), hie_skipWs_eq hws,
                    hie_cons_of_ne _ _ (by decide)]
              · rw [if_neg hd] at h
                cases hm : parseMembers fuel (d :: rem) with
                | none => rw [hm] at h; exact absurd h (by simp)
                | some pr =>
                  obtain ⟨ms, rem2⟩ := pr
                  rw [hm] at h
                  cases h
                  subst hbrace
                  rw [hie_cons_of_ne _ _ (by decide), hie_skipWs_eq hws]
                  exact ihM _ _ _ hm
          · rw [if_neg hbrace] at h
            by_cases hbrack : c = '['
            · rw [if_pos hbrack] at h
              cases hws : skipWs rest1 with
              | nil => rw [hws] at h; exact absurd h (by simp)
              | cons d rem =>
                rw [hws] at h
                simp only [] at h
                by_cases hd : d = ']'
                · rw [if_pos hd] at h
                  cases h
                  subst hbrack hd
                  rw [hie_cons_of_ne _ _ (by decide), hie_skipWs_eq hws,
                      hie_cons_of_ne _ _ (by decide)]
                · rw [if_neg hd] at h
                  cases he : parseElems fuel (d :: rem) with
                  | none => rw [he] at h; exact absurd h (by simp)
                  | some pr =>
                    obtain ⟨es, rem2⟩ := pr
                    rw [he] at h
                    cases h
                    subst hbrack
                    rw [hie_cons_of_ne _ _ (by decide), hie_skipWs_eq hws]
                    exact ihE _ _ _ he
            · rw [if_neg hbrack] at h
              cases hk1 : stripKeyword ['n', 'u', 'l', 'l'] (c :: rest1) with
              | some rem => rw [hk1] at h; cases h
                            exact stripKeyword_clean (by decide) hk1
              | none =>
                rw [hk1] at h
                cases hk2 : stripKeyword ['t', 'r', 'u', 'e'] (c :: rest1) with
                | some rem => rw [hk2] at h; cases h
                              exact stripKeyword_clean (by decide) hk2
                | none =>
                  rw [hk2] at h
                  cases hk3 : stripKeyword ['f', 'a', 'l', 's', 'e'] (c :: rest1) with
                  | some rem => rw [hk3] at h; cases h
                                exact stripKeyword_clean (by decide) hk3
                  | none =>
                    rw [hk3] at h
                    cases hk4 : stripKeyword ['N', 'a', 'N'] (c :: rest1) with
                    | some rem => rw [hk4] at h; cases h
                                  exact stripKeyword_clean (by decide) hk4
                    | none =>
                      rw [hk4] at h
                      cases hk5 : stripKeyword
                          ['I', 'n', 'f', 'i', 'n', 'i', 't', 'y'] (c :: rest1) with
                      | some rem => rw [hk5] at h; cases h
                                    exact stripKeyword_clean (by decide) hk5
                      | none =>
                        rw [hk5] at h
                        cases hk6 : stripKeyword
                            ['-', 'I', 'n', 'f', 'i', 'n', 'i', 't', 'y'] (c :: rest1) with
                        | some rem => rw [hk6] at h; cases h
                                      exact stripKeyword_clean (by decide) hk6
                        | none =>
                          rw [hk6] at h
                          cases hn : parseNumber (c :: rest1) with
                          | none => rw [hn] at h; exact absurd h (by simp)
                          | some pr =>
                            obtain ⟨lex, rem⟩ := pr
                            rw [hn] at h
                            cases h
                            exact hie_of_consumesOnlyPlain (parseNumber_clean hn)
    · intro cs vs rest h
      rw [parseElems.eq_def] at h
      simp only [] at h
      cases hv : parseValue fuel cs with
      | none => rw [hv] at h; exact absurd h (by simp)
      | some pr =>
        obtain ⟨v, rest1⟩ := pr
        rw [hv] at h
        simp only [] at h
        cases hws : skipWs rest1 with
        | nil => rw [hws] at h; exact absurd h (by simp)
        | cons d r2 =>
          rw [hws] at h
          simp only [] at h
          by_cases hcomma : d = ','
          · rw [if_pos hcomma] at h
            cases he2 : parseElems fuel (skipWs r2) with
            | none => rw [he2] at h; exact absurd h (by simp)
            | some pr2 =>
              obtain ⟨vs2, rem⟩ := pr2
              rw [he2] at h
              cases h
              subst hcomma
              calc hasInvalidEscape cs
                  = hasInvalidEscape rest1 := ihV _ _ _ hv
                _ = hasInvalidEscape (',' :: r2) := hie_skipWs_eq hws
                _ = hasInvalidEscape r2 := hie_cons_of_ne _ _ (by decide)
                _ = hasInvalidEscape (skipWs r2) := (skipWs_clean r2).symm
                _ = hasInvalidEscape rest := ihE _ _ _ he2
          · rw [if_neg hcomma] at h
            by_cases hbr : d = ']'
            · rw [if_pos hbr] at h
              cases h
              subst hbr
              calc hasInvalidEscape cs
                  = hasInvalidEscape rest1 := ihV _ _ _ hv
                _ = hasInvalidEscape (']' :: rest) := hie_skipWs_eq hws
                _ = hasInvalidEscape rest := hie_cons_of_ne _ _ (by decide)
            · rw [if_neg hbr] at h; exact absurd h (by simp)
    · intro cs ms rest h
      rw [parseMembers.eq_def] at h
      simp only [] at h
      match cs with
      | [] => exact absurd h (by simp)
      | c :: rest1 =>
        simp only [] at h
        by_cases hq : c = '"'
        · rw [if_pos hq] at h
          cases hk : parseStringBody rest1 with
          | none => rw [hk] at h; exact absurd h (by simp)
          | some pr =>
            obtain ⟨key, r1⟩ := pr
            rw [hk] at h
            simp only [] at h
            cases hws : skipWs r1 with
            | nil => rw [hws] at h; exact absurd h (by simp)
            | cons d r2 =>
              rw [hws] at h
              simp only [] at h
              by_cases hcolon : d = ':'
              · rw [if_pos hcolon] at h
                cases hv : parseValue fuel (skipWs r2) with
                | none => rw [hv] at h; exact absurd h (by simp)
                | some pr2 =>
                  obtain ⟨v, r3⟩ := pr2
                  rw [hv] at h
                  simp only [] at h
                  cases hws3 : skipWs r3 with
                  | nil => rw [hws3] at h; exact absurd h (by simp)
                  | cons e r4 =>
                    rw [hws3] at h
                    simp only [] at h
                    by_cases hcomma : e = ','
                    · rw [if_pos hcomma] at h
                      cases hm : parseMembers fuel (skipWs r4) with
                      | none => rw [hm] at h; exact absurd h (by simp)
                      | some pr3 =>
                        obtain ⟨ms2, rem⟩ := pr3
                        rw [hm] at h
                        cases h
                        subst hq hcolon hcomma
                        calc hasInvalidEscape ('"' :: rest1)
                            = hasInvalidEscape rest1 := hie_cons_of_ne _ _ (by decide)
                          _ = hasInvalidEscape r1 := parseStringBody_clean hk
                          _ = hasInvalidEscape (':' :: r2) := hie_skipWs_eq hws
                          _ = hasInvalidEscape r2 := hie_cons_of_ne _ _ (by decide)
                          _ = hasInvalidEscape (skipWs r2) := (skipWs_clean r2).symm
                          _ = hasInvalidEscape r3 := ihV _ _ _ hv
                          _ = hasInvalidEscape (',' :: r4) := hie_skipWs_eq hws3
                          _ = hasInvalidEscape r4 := hie_cons_of_ne _ _ (by decide)
                          _ = hasInvalidEscape (skipWs r4) := (skipWs_clean r4).symm
                          _ = hasInvalidEscape rest := ihM _ _ _ hm
                    · rw [if_neg hcomma] at h
                      by_cases hbr : e = '}'
                      · rw [if_pos hbr] at h
                        cases h
                        subst hq hcolon hbr
                        calc hasInvalidEscape ('"' :: rest1)
                            = hasInvalidEscape rest1 := hie_cons_of_ne _ _ (by decide)
                          _ = hasInvalidEscape r1 := parseStringBody_clean hk
                          _ = hasInvalidEscape (':' :: r2) := hie_skipWs_eq hws
                          _ = hasInvalidEscape r2 := hie_cons_of_ne _ _ (by decide)
                          _ = hasInvalidEscape (skipWs r2) := (skipWs_clean r2).symm
                          _ = hasInvalidEscape r3 := ihV _ _ _ hv
                          _ = hasInvalidEscape ('}' :: rest) := hie_skipWs_eq hws3
                          _ = hasInvalidEscape rest := hie_cons_of_ne _ _ (by decide)
                      · rw [if_neg hbr] at h; exact absurd h (by simp)
              · rw [if_neg hcolon] at h; exact absurd h (by simp)
        · rw [if_neg hq] at h; exact absurd h (by simp)

/-- A string accepted by strict `json_loads` contains no unescaped invalid
escape. -/
theorem json_loads_clean {s : String} {v : Json} (h : json_loads s = some v) :
    hasInvalidEscape s.data = false := by
  rw [json_loads] at h
  cases hp : parseValue (2 * s.data.length + 2) (skipWs s.data) with
  | none => rw [hp] at h; exact absurd h (by simp)
  | some pr =>
    obtain ⟨v', rest⟩ := pr
    rw [hp] at h
    simp only [] at h
    by_cases hr : skipWs rest = []
    · have h1 : hasInvalidEscape s.data = hasInvalidEscape rest := by
        rw [← skipWs_clean s.data]
        exact (parser_clean _).1 _ _ _ hp
      rw [h1, ← skipWs_clean rest, hr]
      rfl
    · rw [if_neg hr] at h
      exact absurd h (by simp)

/-! ## Claim theorems -/

/-- A depth-0 correct answer row, for concrete gamification scenarios. -/
def plainCorrectRow (sid : Nat) : HistoryEntry :=
  { student_id := sid, question := "2+2", correct_answer := some 4,
    student_answer := "4", is_correct := true, topic := some "Addition",
    requested_topic := none, feedback := none, weakness := none,
    misconception_type := none, misconception_detail := none,
    scaffold_level := 0, scaffold_parent_id := none }

/-- C2: for a history of exactly 5 consecutive correct answers at scaffold
depth 0, `get_gamification_stats` yields total XP 58 with per-entry running
totals 10, 20, 33 (streak-3 bonus), 43, 58 (streak-5 bonus), level 4,
current streak 5 and best streak 5. -/
theorem c2_five_correct_gamification :
    (get_gamification_stats (List.replicate 5 (plainCorrectRow 1)) 1).xp = 58 ∧
    (get_gamification_stats (List.replicate 5 (plainCorrectRow 1)) 1).level = 4 ∧
    (get_gamification_stats (List.replicate 5 (plainCorrectRow 1)) 1).streak = 5 ∧
    (get_gamification_stats (List.replicate 5 (plainCorrectRow 1)) 1).best_streak = 5 ∧
    (List.range 5).map
        (fun i => (gamFold (gamRows (List.replicate (i + 1) (plainCorrectRow 1)) 1)).xp)
      = [10, 20, 33, 43, 58] := by
  refine ⟨by decide, ?_, by decide, by decide, by decide⟩
  have hxp : (gamFold (gamRows (List.replicate 5 (plainCorrectRow 1)) 1)).xp = 58 := by
    decide
  have hsq : Nat.sqrt 9 = 3 := by simpa using Nat.sqrt_eq 3
  show (get_gamification_stats (List.replicate 5 (plainCorrectRow 1)) 1).level = 4
  simp only [get_gamification_stats]
  rw [hxp]
  unfold _level_from_xp
  rw [show 4 * 58 / 25 = 9 from by norm_num, hsq]
  rfl

/-- C8: the level function `_level_from_xp` is monotone non-decreasing in
XP and never exceeds 50. -/
theorem c8_level_monotone_capped :
    (∀ x y : Nat, x ≤ y → _level_from_xp x ≤ _level_from_xp y) ∧
    (∀ x : Nat, _level_from_xp x ≤ 50) := by
  constructor
  · intro x y hxy
    unfold _level_from_xp
    exact min_le_min
      (Nat.add_le_add_right
        (Nat.sqrt_le_sqrt (Nat.div_le_div_right (Nat.mul_le_mul_left 4 hxy))) 1)
      le_rfl
  · intro x
    exact min_le_right _ _

/-- Witness for C8 at concrete XP values. -/
theorem c8_witness :
    _level_from_xp 58 ≤ _level_from_xp 100 ∧ _level_from_xp 1000000 ≤ 50 :=
  ⟨c8_level_monotone_capped.1 58 100 (by decide),
   c8_level_monotone_capped.2 1000000⟩

/-- C10: for an empty history the gamification snapshot is XP 0, level 1
("Beginner"), streak 0, best streak 0, XP-for-next 6, progress 0 %. -/
theorem c10_empty_history_stats (sid : Nat) :
    get_gamification_stats [] sid =
      { xp := 0, level := 1, level_title := "Beginner", xp_for_next := 6,
        xp_progress_pct := 0, streak := 0, best_streak := 0 } := by
  have hl : _level_from_xp 0 = 1 := rfl
  unfold get_gamification_stats
  rw [show gamRows [] sid = [] from rfl,
      show gamFold [] = ⟨0, 0, 0⟩ from rfl]
  simp only [hl]
  norm_num [truncToInt, _level_title, LEVEL_TITLES]

/-- C9: skipping an active problem writes a history row with
`is_correct = false` and `student_answer = "skipped"`, which adds exactly
2 XP and resets the current streak to 0 — the same XP rule as a wrong
answer. -/
theorem c9_skip_adds_two_xp (sid : Nat) (p : Problem) (hist : List HistoryEntry) :
    (api_skip sid (some p) hist).1 = hist ++ [skipEntry sid p] ∧
    (skipEntry sid p).is_correct = false ∧
    (skipEntry sid p).student_answer = "skipped" ∧
    (api_skip sid (some p) hist).2.xp = (get_gamification_stats hist sid).xp + 2 ∧
    (api_skip sid (some p) hist).2.streak = 0 := by
  have hrows : gamRows (hist ++ [skipEntry sid p]) sid
      = gamRows hist sid ++ [⟨false, 0⟩] := by
    unfold gamRows
    rw [List.filter_append, List.map_append]
    simp [skipEntry]
  have hfold : gamFold (gamRows (hist ++ [skipEntry sid p]) sid)
      = gamStep (gamFold (gamRows hist sid)) ⟨false, 0⟩ := by
    rw [hrows]
    unfold gamFold
    rw [List.foldl_append]
    rfl
  refine ⟨rfl, rfl, rfl, ?_, ?_⟩
  · show (get_gamification_stats (hist ++ [skipEntry sid p]) sid).xp = _
    simp only [get_gamification_stats]
    rw [hfold]
    rfl
  · show (get_gamification_stats (hist ++ [skipEntry sid p]) sid).streak = 0
    simp only [get_gamification_stats]
    rw [hfold]
    rfl

/-- C4: for any input string containing an unescaped backslash followed by
a character that is not a recognized JSON escape character,
`_parse_json_lenient` behaves exactly like strict parsing of the sanitized
string (every backslash not followed by a recognized escape character
doubled): it returns the same JSON value when that parse succeeds, and
fails with a parse error exactly when the sanitized string is still not
valid JSON. -/
theorem c4_parse_lenient_eq_sanitized (raw : String)
    (h : hasInvalidEscape raw.data = true) :
    parse_json_lenient raw = json_loads (sanitize raw) := by
  have hfail : json_loads raw = none := by
    cases hj : json_loads raw with
    | none => rfl
    | some v => exact absurd (json_loads_clean hj) (by rw [h]; simp)
  rw [parse_json_lenient, hfail]

/-- Witness for C4 on a payload with an invalid `\q` escape. -/
theorem c4_witness :
    hasInvalidEscape ("\x7b\"a\": \"\\q\"\x7d").data = true ∧
    parse_json_lenient "\x7b\"a\": \"\\q\"\x7d" = json_loads (sanitize "\x7b\"a\": \"\\q\"\x7d") :=
  ⟨by decide, c4_parse_lenient_eq_sanitized _ (by decide)⟩

/-! ### Achievement idempotence (C7) -/

theorem unlock_mono (u : List (Nat × String)) (sid : Nat) (k : String) :
    u ⊆ (unlock_achievement u sid k).1 := by
  unfold unlock_achievement
  by_cases hc : u.contains (sid, k) = true
  · rw [if_pos hc]
    exact fun _x hx => hx
  · rw [if_neg hc]
    exact List.subset_append_left _ _

theorem unlock_mem (u : List (Nat × String)) (sid : Nat) (k : String) :
    (sid, k) ∈ (unlock_achievement u sid k).1 := by
  unfold unlock_achievement
  by_cases hc : u.contains (sid, k) = true
  · rw [if_pos hc]
    simpa using hc
  · rw [if_neg hc]
    exact List.mem_append_right _ (by simp)

theorem unlock_nodup {u : List (Nat × String)} (sid : Nat) (k : String)
    (h : u.Nodup) : (unlock_achievement u sid k).1.Nodup := by
  unfold unlock_achievement
  by_cases hc : u.contains (sid, k) = true
  · rw [if_pos hc]; exact h
  · rw [if_neg hc]
    refine List.Nodup.append h (List.nodup_singleton _) ?_
    intro x hx hx2
    simp only [List.mem_singleton] at hx2
    subst hx2
    exact hc (by simpa using hx)

theorem runChecks_mono (sid : Nat) (checks : List (String × Bool)) :
    ∀ u, u ⊆ (runChecks sid checks u).1 := by
  induction checks with
  | nil => intro u; exact fun x hx => hx
  | cons kc rest ih =>
    intro u
    obtain ⟨k, c⟩ := kc
    rw [runChecks]
    by_cases hc : (c && ACHIEVEMENT_KEYS.contains k) = true
    · rw [if_pos hc]
      exact fun x hx => ih _ (unlock_mono u sid k hx)
    · rw [if_neg hc]
      exact ih u

theorem runChecks_covers (sid : Nat) (checks : List (String × Bool)) :
    ∀ u k, (k, true) ∈ checks → ACHIEVEMENT_KEYS.contains k = true →
      (sid, k) ∈ (runChecks sid checks u).1 := by
  induction checks with
  | nil => intro u k hk _; exact absurd hk (List.not_mem_nil _)
  | cons kc rest ih =>
    intro u k hk hkA
    obtain ⟨k', c'⟩ := kc
    rcases List.mem_cons.mp hk with heq | hk'
    · cases heq
      rw [runChecks, if_pos (by simpa using hkA)]
      exact runChecks_mono sid rest _ (unlock_mem u sid k)
    · rw [runChecks]
      by_cases hc : (c' && ACHIEVEMENT_KEYS.contains k') = true
      · rw [if_pos hc]
        exact ih _ k hk' hkA
      · rw [if_neg hc]
        exact ih u k hk' hkA

theorem runChecks_newly (sid : Nat) (checks : List (String × Bool)) :
    ∀ u k, k ∈ (runChecks sid checks u).2 →
      (sid, k) ∉ u ∧ (k, true) ∈ checks ∧ ACHIEVEMENT_KEYS.contains k = true := by
  induction checks with
  | nil => intro u k hk; rw [runChecks] at hk; exact absurd hk (List.not_mem_nil _)
  | cons kc rest ih =>
    intro u k hk
    obtain ⟨k', c'⟩ := kc
    rw [runChecks] at hk
    by_cases hc : (c' && ACHIEVEMENT_KEYS.contains k') = true
    · have hc2 := hc
      rw [Bool.and_eq_true] at hc2
      have hc' : c' = true := hc2.1
      subst hc'
      rw [if_pos hc] at hk
      simp only [] at hk
      by_cases hmem : u.contains (sid, k') = true
      · rw [show unlock_achievement u sid k' = (u, false) from by
              unfold unlock_achievement; rw [if_pos hmem]] at hk
        simp only [] at hk
        obtain ⟨h1, h2, h3⟩ := ih _ k hk
        exact ⟨h1, List.mem_cons_of_mem _ h2, h3⟩
      · rw [show unlock_achievement u sid k' = (u ++ [(sid, k')], true) from by
              unfold unlock_achievement; rw [if_neg hmem]] at hk
        simp only [] at hk
        rcases List.mem_cons.mp hk with rfl | hk2
        · refine ⟨fun habs => hmem (by simpa using habs),
            List.mem_cons_self _ _, hc2.2⟩
        · obtain ⟨h1, h2, h3⟩ := ih _ k hk2
          exact ⟨fun habs => h1 (List.mem_append_left _ habs),
            List.mem_cons_of_mem _ h2, h3⟩
    · rw [if_neg hc] at hk
      obtain ⟨h1, h2, h3⟩ := ih u k hk
      exact ⟨h1, List.mem_cons_of_mem _ h2, h3⟩

theorem runChecks_nodup (sid : Nat) (checks : List (String × Bool)) :
    ∀ u, u.Nodup → (runChecks sid checks u).1.Nodup := by
  induction checks with
  | nil => intro u h; exact h
  | cons kc rest ih =>
    intro u h
    obtain ⟨k, c⟩ := kc
    rw [runChecks]
    by_cases hc : (c && ACHIEVEMENT_KEYS.contains k) = true
    · rw [if_pos hc]
      exact ih _ (unlock_nodup sid k h)
    · rw [if_neg hc]
      exact ih u h

/-- C7: running the achievement check twice in a row never reports the same
key as newly unlocked in both runs: an already-unlocked achievement is never
re-reported, the second run reports nothing at all, and an achievement
unlocks at most once per (student, key) pair (the unlock table stays
duplicate-free). -/
theorem c7_achievements_idempotent (hist : List HistoryEntry)
    (unlocked : List (Nat × String)) (sid : Nat) :
    (∀ k, (sid, k) ∈ unlocked → k ∉ (check_achievements hist unlocked sid).2) ∧
    (check_achievements hist (check_achievements hist unlocked sid).1 sid).2 = [] ∧
    (unlocked.Nodup → (check_achievements hist unlocked sid).1.Nodup) ∧
    (∀ k, k ∈ (check_achievements hist unlocked sid).2 →
      k ∉ (check_achievements hist (check_achievements hist unlocked sid).1 sid).2) := by
  have hempty :
      (check_achievements hist (check_achievements hist unlocked sid).1 sid).2 = [] := by
    by_contra hne
    obtain ⟨k, hk⟩ := List.exists_mem_of_ne_nil _ hne
    obtain ⟨h1, h2, h3⟩ := runChecks_newly sid _ _ k hk
    exact h1 (runChecks_covers sid _ unlocked k h2 h3)
  refine ⟨?_, hempty, runChecks_nodup sid _ unlocked, ?_⟩
  · intro k hk hmem
    exact (runChecks_newly sid _ unlocked k hmem).1 hk
  · intro k _ hk2
    rw [hempty] at hk2
    exact absurd hk2 (List.not_mem_nil k)

/-- A one-row history for the C7 witness. -/
def histC7 : List HistoryEntry := [plainCorrectRow 1]

/-- Witness for C7: with one correct answer on record, the second
achievement run reports nothing and the unlock table has no duplicates. -/
theorem c7_witness :
    (check_achievements histC7 (check_achievements histC7 [] 1).1 1).2 = [] ∧
    (check_achievements histC7 [] 1).1.Nodup :=
  ⟨(c7_achievements_idempotent histC7 [] 1).2.1,
   (c7_achievements_idempotent histC7 [] 1).2.2.1 List.nodup_nil⟩

/-! ### Problem bank lookup (C3, C5) -/

theorem find_first_minimal {rows : List BankEntry} {seen : List String}
    {r : BankEntry}
    (hsort : rows.Pairwise (fun a b => a.times_served ≤ b.times_served))
    (hfind : rows.find? (fun e => !(seen.contains e.question)) = some r) :
    ∀ r' ∈ rows, r'.times_served < r.times_served →
      seen.contains r'.question = true := by
  induction rows with
  | nil => simp at hfind
  | cons a l ih =>
    by_cases hpa : (!(seen.contains a.question)) = true
    · rw [@List.find?_cons_of_pos _ (fun e => !(seen.contains e.question)) a l hpa]
        at hfind
      cases hfind
      intro r' hr' hlt
      rcases List.mem_cons.mp hr' with rfl | hr'
      · exact absurd hlt (lt_irrefl _)
      · have hle := (List.pairwise_cons.mp hsort).1 r' hr'
        exact absurd hlt (by omega)
    · rw [@List.find?_cons_of_neg _ (fun e => !(seen.contains e.question)) a l hpa]
        at hfind
      intro r' hr' hlt
      rcases List.mem_cons.mp hr' with rfl | hr'
      · simpa using hpa
      · exact ih (List.pairwise_cons.mp hsort).2 hfind r' hr' hlt

/-- C3: the reusable-problem lookup never returns a problem whose question
is among the student's `exclude_recent` most recent questions; any returned
entry is a matching bank entry of minimal times-served among the unseen
matching entries (the order parameter ranges over every
`times_served ASC, RANDOM()` result); the lookup yields `None` exactly when
every matching bank entry was recently seen. -/
theorem c3_find_reusable_never_repeats (hist : List HistoryEntry)
    (sid exclude_recent grade : Nat) (style topic : String) (scf : Bool)
    (mt : Option String) (bank rows : List BankEntry)
    (hq : BankQueryResult bank grade style topic scf mt rows) :
    (∀ r, find_reusable_problem hist sid exclude_recent rows = some r →
      r ∈ bank ∧ bankQueryMatch grade style topic scf mt r = true ∧
      r.question ∉ recentQuestions hist sid exclude_recent ∧
      ∀ r' ∈ bank, bankQueryMatch grade style topic scf mt r' = true →
        r'.times_served < r.times_served →
        r'.question ∈ recentQuestions hist sid exclude_recent) ∧
    (find_reusable_problem hist sid exclude_recent rows = none ↔
      ∀ r ∈ bank, bankQueryMatch grade style topic scf mt r = true →
        r.question ∈ recentQuestions hist sid exclude_recent) := by
  obtain ⟨hperm, hsort⟩ := hq
  constructor
  · intro r hr
    rw [find_reusable_problem] at hr
    have hmem : r ∈ rows := List.mem_of_find?_eq_some hr
    have hmemf : r ∈ bank.filter (bankQueryMatch grade style topic scf mt) :=
      hperm.mem_iff.mp hmem
    have hp := List.find?_some hr
    refine ⟨(List.mem_filter.mp hmemf).1, (List.mem_filter.mp hmemf).2, ?_, ?_⟩
    · simpa using hp
    · intro r' hr'b hr'm hlt
      have hr'rows : r' ∈ rows :=
        hperm.mem_iff.mpr (List.mem_filter.mpr ⟨hr'b, hr'm⟩)
      have := find_first_minimal hsort hr r' hr'rows hlt
      simpa using this
  · rw [find_reusable_problem, List.find?_eq_none]
    constructor
    · intro hall r hrb hm
      have hrrows : r ∈ rows := hperm.mem_iff.mpr (List.mem_filter.mpr ⟨hrb, hm⟩)
      have := hall r hrrows
      simpa using this
    · intro hall r hrrows
      obtain ⟨hrb, hm⟩ := List.mem_filter.mp (hperm.mem_iff.mp hrrows)
      have := hall r hrb hm
      simp [this]

/-- Bank and history for the C3 witness: the only matching entry was
recently seen, so the lookup must return `None`. -/
def bankC3 : List BankEntry :=
  [{ id := 1, grade := 4, curriculum_style := "common_core", topic := "Addition",
     question := "q1", correct_answer := "5", hint := "h", is_scaffold := false,
     scaffold_misconception_type := none, times_served := 0 }]

def histC3 : List HistoryEntry :=
  [{ plainCorrectRow 1 with question := "q1" }]

/-- Witness for C3. -/
theorem c3_witness : find_reusable_problem histC3 1 20 bankC3 = none :=
  (c3_find_reusable_never_repeats histC3 1 20 4 "common_core" "Addition" false
      none bankC3 bankC3 ⟨by decide, by decide⟩).2.mpr (by decide)

/-- The row inserted by `save_to_problem_bank`. -/
def savedBankEntry (bank : List BankEntry) (grade : Nat)
    (style topic question ca hint : String) (scf : Bool) (mt : Option String) :
    BankEntry :=
  { id := bank.length + 1, grade := grade, curriculum_style := style,
    topic := topic, question := question, correct_answer := ca, hint := hint,
    is_scaffold := scf, scaffold_misconception_type := mt, times_served := 0 }

theorem savedBankEntry_matches (bank : List BankEntry) (grade : Nat)
    (style topic question ca hint : String) (scf : Bool) (mt : Option String) :
    bankQueryMatch grade style topic scf mt
      (savedBankEntry bank grade style topic question ca hint scf mt) = true := by
  unfold bankQueryMatch savedBankEntry
  by_cases hb : (scf && mt.isSome) = true
  · have hb2 := hb
    rw [Bool.and_eq_true] at hb2
    rw [if_pos hb]
    simp [hb2.1]
  · rw [if_neg hb]
    simp

/-- C5 counterexample data: the bank already holds a matching entry `qF`
with `times_served = 0` before `qE` is saved. -/
def c5EntryF : BankEntry :=
  { id := 1, grade := 4, curriculum_style := "common_core", topic := "Addition",
    question := "qF", correct_answer := "1", hint := "h", is_scaffold := false,
    scaffold_misconception_type := none, times_served := 0 }

def c5SavedEntry : BankEntry :=
  { id := 2, grade := 4, curriculum_style := "common_core", topic := "Addition",
    question := "qE", correct_answer := "2", hint := "h", is_scaffold := false,
    scaffold_misconception_type := none, times_served := 0 }

def c5Rows : List BankEntry := [c5EntryF, c5SavedEntry]

/-- C5 counterexample: after saving `qE` into a bank already holding the
matching entry `qF` (also at times-served 0), the `RANDOM()` tie-break may
order the rows `[qF, qE]`, a legal `times_served ASC` query result, and the
immediate lookup with an empty seen set then returns `qF`, not the saved
entry. -/
theorem c5_counterexample :
    (save_to_problem_bank [c5EntryF] 4 "common_core" "Addition" "qE" "2" "h"
        false none).1 = [c5EntryF, c5SavedEntry] ∧
    c5SavedEntry.times_served = 0 ∧
    BankQueryResult [c5EntryF, c5SavedEntry] 4 "common_core" "Addition" false
      none c5Rows ∧
    find_reusable_problem [] 1 20 c5Rows = some c5EntryF ∧
    c5EntryF ≠ c5SavedEntry :=
  ⟨by decide, by decide, ⟨by decide, by decide⟩, by decide, by decide⟩

/-- C5 amended: a freshly saved bank entry has `times_served = 0`; an
immediate lookup with the same key and an empty seen set always returns a
matching entry with `times_served = 0` — the saved entry itself whenever no
other bank entry matches the key (the `RANDOM()` tie-break makes the choice
among tied entries nondeterministic otherwise); and each
`increment_times_served` call adds exactly 1 to the addressed row and
nothing else. -/
theorem c5_roundtrip_amended (bank : List BankEntry)
    (grade sid exclude_recent : Nat) (style topic question ca hint : String)
    (scf : Bool) (mt : Option String) (rows : List BankEntry)
    (hq : BankQueryResult
      (save_to_problem_bank bank grade style topic question ca hint scf mt).1
      grade style topic scf mt rows) :
    (save_to_problem_bank bank grade style topic question ca hint scf mt).1 =
      bank ++ [savedBankEntry bank grade style topic question ca hint scf mt] ∧
    (savedBankEntry bank grade style topic question ca hint scf mt).times_served
      = 0 ∧
    (∃ r, find_reusable_problem [] sid exclude_recent rows = some r ∧
      bankQueryMatch grade style topic scf mt r = true ∧ r.times_served = 0) ∧
    ((∀ b ∈ bank, bankQueryMatch grade style topic scf mt b = false) →
      find_reusable_problem [] sid exclude_recent rows =
        some (savedBankEntry bank grade style topic question ca hint scf mt)) ∧
    (∀ (bank2 : List BankEntry) (bid : Nat),
      (increment_times_served bank2 bid).map (fun e => (e.id, e.times_served)) =
        bank2.map (fun e =>
          (e.id, if e.id == bid then e.times_served + 1 else e.times_served))) := by
  obtain ⟨hperm, hsort⟩ := hq
  have hsavedmem : savedBankEntry bank grade style topic question ca hint scf mt
      ∈ rows := by
    apply hperm.mem_iff.mpr
    apply List.mem_filter.mpr
    refine ⟨?_, savedBankEntry_matches bank grade style topic question ca hint scf mt⟩
    exact List.mem_append_right _ (by simp [save_to_problem_bank, savedBankEntry])
  have hseen : recentQuestions [] sid exclude_recent = [] := by
    simp [recentQuestions]
  refine ⟨rfl, rfl, ?_, ?_, ?_⟩
  · match hrows : rows with
    | [] => exact absurd hsavedmem (List.not_mem_nil _)
    | rhead :: rtail =>
      refine ⟨rhead, ?_, ?_, ?_⟩
      · rw [find_reusable_problem, hseen]
        exact List.find?_cons_of_pos _ (by simp)
      · exact (List.mem_filter.mp (hperm.mem_iff.mp (List.mem_cons_self _ _))).2
      · rcases List.mem_cons.mp hsavedmem with heq | hmem2
        · rw [← heq]; rfl
        · have hle := (List.pairwise_cons.mp hsort).1 _ hmem2
          have hz : (savedBankEntry bank grade style topic question ca hint
            scf mt).times_served = 0 := rfl
          omega
  · intro hnone
    have hfilter : (save_to_problem_bank bank grade style topic question ca hint
        scf mt).1.filter (bankQueryMatch grade style topic scf mt) =
        [savedBankEntry bank grade style topic question ca hint scf mt] := by
      show (bank ++ [savedBankEntry bank grade style topic question ca hint
        scf mt]).filter _ = _
      rw [List.filter_append]
      rw [List.filter_eq_nil_iff.mpr (by intro a ha; simp [hnone a ha])]
      simp [savedBankEntry_matches]
    have hrows : rows = [savedBankEntry bank grade style topic question ca hint
        scf mt] := by
      rw [hfilter] at hperm
      exact List.perm_singleton.mp hperm
    rw [hrows, find_reusable_problem, hseen]
    exact List.find?_cons_of_pos _ (by simp)
  · intro bank2 bid
    unfold increment_times_served
    rw [List.map_map]
    apply List.map_congr_left
    intro e _
    by_cases hid : (e.id == bid) = true
    · simp [Function.comp, hid]
    · simp [Function.comp, hid]

/-- Witness for C5 (amended): saving into an empty bank and looking up with
the same key and an empty seen set returns exactly the saved entry. -/
theorem c5_witness :
    find_reusable_problem [] 1 20
        [savedBankEntry [] 4 "common_core" "Addition" "qE" "2" "h" false none] =
      some (savedBankEntry [] 4 "common_core" "Addition" "qE" "2" "h" false none) :=
  ((c5_roundtrip_amended [] 4 1 20 "common_core" "Addition" "qE" "2" "h" false
      none [savedBankEntry [] 4 "common_core" "Addition" "qE" "2" "h" false none]
      ⟨by decide, by decide⟩).2.2.2.1) (by decide)

/-! ### Scaffold depth invariant and chain termination (C1, C6) -/

/-- All scaffold depths recorded in a session's state are at most 2. -/
def DepthInv (ss : SessionState) : Prop :=
  (∀ p, ss.currentProblem = some p → p.scaffold_level ≤ 2) ∧
  (∀ ctx, ss.scaffoldCtx = some ctx → ctx.scaffold_level ≤ 2)

theorem depthInv_clear {ss : SessionState} (h : DepthInv ss) :
    DepthInv { ss with scaffoldCtx := none } :=
  ⟨fun p hp => h.1 p hp, fun ctx hctx => by simp at hctx⟩

theorem depthInv_setCtx {ss : SessionState} {ctx : ScaffoldCtx}
    (h : DepthInv ss) (hlev : ctx.scaffold_level ≤ 2) :
    DepthInv { ss with scaffoldCtx := some ctx } := by
  refine ⟨fun p hp => h.1 p hp, fun c hc => ?_⟩
  have hc2 : some ctx = some c := hc
  cases hc2
  exact hlev

/-- The session state after `check_answer` is the old state, the old state
with the scaffold context cleared, or the old state with a scaffold context
one level deeper than the just-answered problem (only when the problem's
depth was below 2). -/
theorem check_answer_state_cases (sid : Nat) (ss : SessionState)
    (hist : List HistoryEntry) (ans fb : String) (misc : Option MiscResult) :
    (check_answer sid ss hist ans fb misc).1 = ss ∨
    (check_answer sid ss hist ans fb misc).1 = { ss with scaffoldCtx := none } ∨
    (∃ p q ctx, ss.currentProblem = some p ∧ parseAnswer ans = some q ∧
      p.scaffold_level < 2 ∧
      (check_answer sid ss hist ans fb misc).1 =
        { ss with scaffoldCtx := some ctx } ∧
      ctx.scaffold_level = p.scaffold_level + 1) := by
  rw [check_answer]
  cases hcp : ss.currentProblem with
  | none => left; rfl
  | some problem =>
    simp only []
    cases hpa : parseAnswer ans with
    | none => left; rfl
    | some q =>
      simp only []
      by_cases hic : answerIsCorrect q problem.correct_answer = true
      · rw [if_pos hic]
        by_cases hsc : problem.is_scaffold = true
        · rw [if_pos hsc]; right; left; rfl
        · rw [if_neg hsc]; left; rfl
      · rw [if_neg hic]
        by_cases hmax : problem.scaffold_level ≥ 2
        · rw [if_pos hmax]; right; left; rfl
        · rw [if_neg hmax]
          right; right
          exact ⟨problem, q, _, rfl, rfl, by omega, rfl, rfl⟩

theorem check_answer_depthInv (sid : Nat) (ss : SessionState)
    (hist : List HistoryEntry) (ans fb : String) (misc : Option MiscResult)
    (h : DepthInv ss) : DepthInv (check_answer sid ss hist ans fb misc).1 := by
  rcases check_answer_state_cases sid ss hist ans fb misc with
    he | he | ⟨p, q, ctx, hcp, hpa, hlt, he, hlev⟩
  · rw [he]; exact h
  · rw [he]; exact depthInv_clear h
  · rw [he]
    apply depthInv_setCtx h
    omega

theorem applyAction_depthInv (c : SessionState × List HistoryEntry)
    (a : Action) (h : DepthInv c.1) : DepthInv (applyAction c a).1 := by
  cases a with
  | newProblem q ca hint topic reqTopic =>
    refine ⟨fun p hp => ?_, fun ctx hctx => ?_⟩
    · have hp2 : some (Problem.mk q ca hint topic reqTopic false 0) = some p := hp
      cases hp2
      exact Nat.zero_le 2
    · exact absurd hctx (by simp [applyAction, new_problem])
  | newProblemFailed => exact depthInv_clear h
  | submitAnswer sid ans fb misc =>
    exact check_answer_depthInv sid c.1 c.2 ans fb misc h
  | scaffoldProblem q ca hint topic =>
    show DepthInv (scaffold_problem c.1 q ca hint topic).1
    rw [scaffold_problem]
    cases hctx : c.1.scaffoldCtx with
    | none => exact h
    | some ctx =>
      simp only []
      refine ⟨fun p hp => ?_, fun ctx2 hctx2 => ?_⟩
      · have hp2 : some (Problem.mk q ca hint topic none true ctx.scaffold_level)
            = some p := hp
        cases hp2
        exact h.2 ctx hctx
      · have hc2 : some ctx = some ctx2 := hctx2
        cases hc2
        exact h.2 ctx hctx
  | skip sid => exact h

theorem depthInv_init : DepthInv initConfig.1 :=
  ⟨fun p hp => by simp [initConfig] at hp,
   fun ctx hctx => by simp [initConfig] at hctx⟩

theorem runActions_depthInv (as : List Action) :
    ∀ c, DepthInv c.1 → DepthInv (runActions c as).1 := by
  induction as with
  | nil => intro c h; exact h
  | cons a as ih => intro c h; exact ih _ (applyAction_depthInv c a h)

/-- A wrong answer to a problem whose scaffold depth has reached 2
terminates the remediation chain: the scaffold context is cleared, the
feedback event carries `scaffold_maxed = true`, and no `scaffold_ready`
event is emitted. -/
theorem check_answer_maxed (sid : Nat) (ss : SessionState)
    (hist : List HistoryEntry) (ans fb : String) (misc : Option MiscResult)
    (p : Problem) (q : ℚ) (hcp : ss.currentProblem = some p)
    (hl : p.scaffold_level = 2) (hq : parseAnswer ans = some q)
    (hw : answerIsCorrect q p.correct_answer = false) :
    (check_answer sid ss hist ans fb misc).1.scaffoldCtx = none ∧
    Effect.send (Event.feedback false false true false) ∈
      (check_answer sid ss hist ans fb misc).2.2 ∧
    ∀ mt lvl, Effect.send (Event.scaffold_ready mt lvl) ∉
      (check_answer sid ss hist ans fb misc).2.2 := by
  rw [check_answer, hcp]
  simp only []
  rw [hq]
  simp only []
  rw [if_neg (by rw [hw]; exact Bool.false_ne_true),
      if_pos (by rw [hl] : p.scaffold_level ≥ 2)]
  refine ⟨rfl, ?_, ?_⟩
  · simp
  · intro mt lvl
    simp

/-- C1: in every reachable session configuration, the scaffold depth of the
current problem and of the stored scaffold context is at most 2; and
submitting a wrong answer to a problem whose depth is already 2 terminates
the chain — the feedback event carries `scaffold_maxed = true`, no
`scaffold_ready` event is sent, and the session's scaffold context is
cleared. -/
theorem c1_scaffold_depth_capped (c : SessionState × List HistoryEntry)
    (hr : ReachableConfig c) :
    ((∀ p, c.1.currentProblem = some p → p.scaffold_level ≤ 2) ∧
     (∀ ctx, c.1.scaffoldCtx = some ctx → ctx.scaffold_level ≤ 2)) ∧
    (∀ (p : Problem) (sid : Nat) (ans fb : String) (misc : Option MiscResult)
        (q : ℚ),
      c.1.currentProblem = some p → p.scaffold_level = 2 →
      parseAnswer ans = some q → answerIsCorrect q p.correct_answer = false →
      (check_answer sid c.1 c.2 ans fb misc).1.scaffoldCtx = none ∧
      Effect.send (Event.feedback false false true false) ∈
        (check_answer sid c.1 c.2 ans fb misc).2.2 ∧
      ∀ mt lvl, Effect.send (Event.scaffold_ready mt lvl) ∉
        (check_answer sid c.1 c.2 ans fb misc).2.2) := by
  obtain ⟨as, has⟩ := hr
  constructor
  · rw [← has]
    exact runActions_depthInv as initConfig depthInv_init
  · intro p sid ans fb misc q hcp hl hq hw
    exact check_answer_maxed sid c.1 c.2 ans fb misc p q hcp hl hq hw

/-- Demo data driving a session to a depth-2 scaffold problem: a wrong
answer at depth 0, a scaffold round, another wrong answer, and a second
scaffold round. -/
def demoMisc : MiscResult :=
  { misconception_type := "conceptual", misconception_detail := "d",
    scaffold_topic := "t", scaffold_hint := "h" }

def demoActions : List Action :=
  [.newProblem "p0" (some 1) "h" (some "Addition") none,
   .submitAnswer 1 "2" "fb" (some demoMisc),
   .scaffoldProblem "p1" (some 1) "h" (some "Addition"),
   .submitAnswer 1 "2" "fb" (some demoMisc),
   .scaffoldProblem "p2" (some 1) "h" (some "Addition")]

def demoConfig : SessionState × List HistoryEntry :=
  runActions initConfig demoActions

def demoProblem2 : Problem :=
  { question := "p2", correct_answer := some 1, hint := "h",
    topic := some "Addition", requested_topic := none, is_scaffold := true,
    scaffold_level := 2 }

/-- Witness for C1: in the concrete reachable depth-2 configuration, a
wrong answer terminates the chain. -/
theorem c1_witness :
    (check_answer 1 demoConfig.1 demoConfig.2 "3" "fb" none).1.scaffoldCtx
      = none ∧
    Effect.send (Event.feedback false false true false) ∈
      (check_answer 1 demoConfig.1 demoConfig.2 "3" "fb" none).2.2 ∧
    ∀ mt lvl, Effect.send (Event.scaffold_ready mt lvl) ∉
      (check_answer 1 demoConfig.1 demoConfig.2 "3" "fb" none).2.2 :=
  (c1_scaffold_depth_capped demoConfig ⟨demoActions, rfl⟩).2 demoProblem2 1 "3"
    "fb" none (((3 : Int) : ℚ)) rfl rfl rfl rfl

/-- C6: with an active problem, an answer string that parses as neither an
integer nor a decimal yields only the user-visible "enter a number" error —
no history write, no state change; an answer string that does parse yields
exactly one history write, and that write is the first effect, before any
feedback generation. -/
theorem c6_answer_parsing (sid : Nat) (ss : SessionState)
    (hist : List HistoryEntry) (ans fb : String) (misc : Option MiscResult)
    (p : Problem) (hp : ss.currentProblem = some p) :
    (parseAnswer ans = none →
      check_answer sid ss hist ans fb misc =
        (ss, hist, [Effect.send (Event.errorMsg "Please enter a number")])) ∧
    (∀ q, parseAnswer ans = some q →
      ∃ entry rest,
        (check_answer sid ss hist ans fb misc).2.2 =
          Effect.saveHistory entry :: rest ∧
        (∀ e, Effect.saveHistory e ∉ rest) ∧
        (check_answer sid ss hist ans fb misc).2.1 = hist ++ [entry]) := by
  constructor
  · intro hnone
    rw [check_answer, hp]
    simp only []
    rw [hnone]
  · intro q hq
    rw [check_answer, hp]
    simp only []
    rw [hq]
    simp only []
    split
    · split
      · exact ⟨_, _, rfl, by intro e; simp, rfl⟩
      · exact ⟨_, _, rfl, by intro e; simp, rfl⟩
    · split
      · exact ⟨_, _, rfl, by intro e; simp, rfl⟩
      · exact ⟨_, _, rfl, by intro e; simp, rfl⟩

/-- Concrete problem and session for the C6 witness. -/
def demoProblem0 : Problem :=
  { question := "2+2", correct_answer := some 4, hint := "h",
    topic := some "Addition", requested_topic := none }

def demoSession : SessionState :=
  { currentProblem := some demoProblem0, scaffoldCtx := none }

/-- Witness for C6: a non-numeric answer only sends the error event. -/
theorem c6_witness :
    check_answer 1 demoSession [] "abc" "fb" none =
      (demoSession, [], [Effect.send (Event.errorMsg "Please enter a number")]) :=
  (c6_answer_parsing 1 demoSession [] "abc" "fb" none demoProblem0 rfl).1 rfl

end MathCrew
